import Mathlib

/-!
Shallow embedding of the ecma-string value representation of
`jerry-core/ecma/base/ecma-helpers-string.c`.

Descriptors (`ecma_string_t`) are modelled as Lean structures; the heap
(chunk blocks, number cells) and the descriptor pool are modelled as an
explicit state record with append-only allocation and `Option`-slots so
that freeing can be expressed.  Machine integers are `Nat` with explicit
`% 2^w` at the points where the C source casts (the `uint16_t` header
fields, the reference counter).  External collaborators that are not part
of the source file (magic-string tables, the literal store, the codec, the
hash function, the number formatter and conversions) are modelled from the
specification and marked as such in their doc comments.
-/

set_option maxRecDepth 4096

/-- Containers of an ecma-string descriptor (`ecma_string_container_t`). -/
inductive EcmaStringContainer where
  | litTable
  | magicString
  | magicStringEx
  | uint32InDesc
  | heapNumber
  | heapChunks
deriving DecidableEq, Repr

/-- String descriptor (`ecma_string_t`): reference counter, container tag,
cached hash, and the payload union addressed as its common field `u`.
`u` holds, depending on the container: a literal-table compressed pointer,
a magic id, an extended magic id, the packed uint32 value, a number-cell
compressed pointer, or a heap-chunk compressed pointer. -/
structure EcmaString where
  refs : Nat
  container : EcmaStringContainer
  hash : Nat
  u : Nat
deriving DecidableEq, Repr

/-- Heap block of a HEAP_CHUNKS string: the `ecma_string_heap_header_t`
(uint16 byte-size, uint16 code-unit-length) followed by the raw bytes that
were copied into the block. -/
structure EcmaHeapChunk where
  size : Nat
  length : Nat
  bytes : List Nat
deriving DecidableEq, Repr

/-- Modelled from the spec: the engine's floating-point number type,
reduced to the distinctions the string core observes (NaN versus an exact
value; the spec's numeric conversions are injected externals). -/
inductive ENumber where
  | nan : ENumber
  | val : ℚ → ENumber
deriving DecidableEq, Repr

/-- Modelled from the spec: the read-only external environment injected at
engine startup: the built-in magic table, the extended magic table and the
literal store (id → bytes). -/
structure LitCharsetRecord where
  bytes : List Nat
  hash : Nat
deriving DecidableEq, Repr

/-- Modelled from the spec: a record of the literal store: a charset
literal, a magic reference or an extended magic reference. -/
inductive LitRecord where
  | charset : LitCharsetRecord → LitRecord
  | magicRef : Nat → LitRecord
  | magicExRef : Nat → LitRecord
deriving DecidableEq, Repr

/-- Modelled from the spec: the injected external tables. -/
structure LitEnv where
  magic : List (List Nat)
  magicEx : List (List Nat)
  lits : List LitRecord
deriving DecidableEq, Repr

/-- Engine state visible to the string core: the descriptor pool and the
two heap areas.  Allocation appends; freeing clears a slot. -/
structure EcmaState where
  strings : List (Option EcmaString)
  chunks : List (Option EcmaHeapChunk)
  numbers : List (Option ENumber)
deriving DecidableEq, Repr

namespace EcmaState

/-- Dereference a descriptor-pool pointer. -/
def getStr (st : EcmaState) (p : Nat) : EcmaString :=
  (st.strings.getD p none).getD ⟨0, .litTable, 0, 0⟩

/-- Dereference a chunk compressed pointer. -/
def getChunk (st : EcmaState) (p : Nat) : EcmaHeapChunk :=
  (st.chunks.getD p none).getD ⟨0, 0, []⟩

/-- Dereference a number-cell compressed pointer. -/
def getNum (st : EcmaState) (p : Nat) : ENumber :=
  (st.numbers.getD p none).getD (.val 0)

/-- `ecma_alloc_string`: take a descriptor from the pool (modelled as an
append returning the fresh index). -/
def allocStr (st : EcmaState) (s : EcmaString) : EcmaState × Nat :=
  ({ st with strings := st.strings ++ [some s] }, st.strings.length)

/-- `mem_heap_alloc_block` for a chunk block. -/
def allocChunk (st : EcmaState) (c : EcmaHeapChunk) : EcmaState × Nat :=
  ({ st with chunks := st.chunks ++ [some c] }, st.chunks.length)

/-- `ecma_alloc_number`: take a number cell. -/
def allocNum (st : EcmaState) (n : ENumber) : EcmaState × Nat :=
  ({ st with numbers := st.numbers ++ [some n] }, st.numbers.length)

/-- Overwrite a descriptor-pool slot. -/
def setStr (st : EcmaState) (p : Nat) (s : EcmaString) : EcmaState :=
  { st with strings := st.strings.set p (some s) }

/-- `ecma_dealloc_string`. -/
def freeStr (st : EcmaState) (p : Nat) : EcmaState :=
  { st with strings := st.strings.set p none }

/-- `mem_heap_free_block` for a chunk block. -/
def freeChunk (st : EcmaState) (p : Nat) : EcmaState :=
  { st with chunks := st.chunks.set p none }

/-- `ecma_dealloc_number`. -/
def freeNum (st : EcmaState) (p : Nat) : EcmaState :=
  { st with numbers := st.numbers.set p none }

end EcmaState

/-- Modelled from the spec: the reference counter is an unsigned counter
that wraps to zero at its maximum; the concrete width is defined outside
this source file, a 32-bit counter is used as representative. -/
def ECMA_STRING_REFS_LIMIT : Nat := 4294967296

/-- Reserved array-index sentinel `2^32 - 1`
(`ECMA_MAX_VALUE_OF_VALID_ARRAY_INDEX`). -/
def ECMA_MAX_VALUE_OF_VALID_ARRAY_INDEX : Nat := 4294967295

/-- Modelled from the spec: `lit_utf8_string_hash_combine`, the external
incremental hash over bytes (a small cached integer hash). -/
def lit_utf8_string_hash_combine (h : Nat) (bytes : List Nat) : Nat :=
  bytes.foldl (fun acc b => (acc * 31 + b) % 256) h

/-- Modelled from the spec: `lit_utf8_string_calc_hash`, the external hash
of a byte sequence. -/
def lit_utf8_string_calc_hash (bytes : List Nat) : Nat :=
  lit_utf8_string_hash_combine 0 bytes

/-- Modelled from the spec: `lit_utf8_string_length`, the codec's
code-unit count of a CESU-8 byte slice (count of non-continuation
bytes). -/
def lit_utf8_string_length (bytes : List Nat) : Nat :=
  (bytes.filter (fun b => decide (b < 128) || decide (192 ≤ b))).length

/-- Modelled from the spec: `lit_get_unicode_char_size_by_utf8_first_byte`,
the codec's byte-width of the code unit starting at a given byte. -/
def lit_get_unicode_char_size_by_utf8_first_byte (b : Nat) : Nat :=
  if b < 128 then 1
  else if b < 192 then 1
  else if b < 224 then 2
  else if b < 240 then 3
  else 4

/-- Modelled from the spec: `lit_is_utf8_string_magic`, lookup of a byte
sequence in the built-in magic table (returns the id on a match). -/
def lit_is_utf8_string_magic (env : LitEnv) (bytes : List Nat) : Option Nat :=
  env.magic.findIdx? (fun e => e == bytes)

/-- Modelled from the spec: `lit_is_ex_utf8_string_magic`, lookup in the
extended magic table. -/
def lit_is_ex_utf8_string_magic (env : LitEnv) (bytes : List Nat) : Option Nat :=
  env.magicEx.findIdx? (fun e => e == bytes)

/-- Modelled from the spec: `lit_get_literal_by_cp` /
`lit_cpointer_decompress`: dereference a literal-table compressed
pointer. -/
def lit_get_literal_by_cp (env : LitEnv) (cp : Nat) : LitRecord :=
  env.lits.getD cp (.charset ⟨[], 0⟩)

/-- Charset bytes of a literal record (`lit_charset_literal_get_charset`). -/
def LitRecord.charsetBytes : LitRecord → List Nat
  | .charset r => r.bytes
  | _ => []

/-- Cached hash of a charset literal (`lit_charset_literal_get_hash`). -/
def LitRecord.charsetHash : LitRecord → Nat
  | .charset r => r.hash
  | _ => 0

/-- Modelled from the spec: `ecma_uint32_to_utf8_string`, the engine's
uint32 decimal formatter (returns the ASCII digit bytes). -/
def ecma_uint32_to_utf8_string (n : Nat) : List Nat :=
  if h : n < 10 then [48 + n]
  else ecma_uint32_to_utf8_string (n / 10) ++ [48 + n % 10]
decreasing_by
  exact Nat.div_lt_self (by omega) (by omega)

/-- Modelled from the spec: `ecma_number_to_utf8_string`, the canonical
textual form of an engine number (NaN prints as `NaN`; an exact value
prints its integer part in decimal, with a `/`-separated denominator for
non-integers — a representative injective canonical form). -/
def ecma_number_to_utf8_string : ENumber → List Nat
  | .nan => [78, 97, 78]
  | .val q =>
    (if q < 0 then [45] else []) ++ ecma_uint32_to_utf8_string q.num.natAbs ++
      (if q.den = 1 then [] else 47 :: ecma_uint32_to_utf8_string q.den)

/-- Modelled from the spec: `ecma_number_is_nan`. -/
def ecma_number_is_nan : ENumber → Bool
  | .nan => true
  | .val _ => false

/-- Modelled from the spec: IEEE `==` on engine numbers (NaN is equal to
nothing; the model has a single zero). -/
def ecma_number_eq : ENumber → ENumber → Bool
  | .val a, .val b => a == b
  | _, _ => false

/-- Modelled from the spec: `ecma_uint32_to_number` (exact). -/
def ecma_uint32_to_number (n : Nat) : ENumber := .val (n : ℚ)

/-- Truncation of a rational toward zero. -/
def ratTruncToInt (q : ℚ) : Int := q.num / (q.den : Int)

/-- Modelled from the spec: `ecma_number_to_uint32`, the ES ToUint32
conversion (NaN to 0, truncate toward zero, wrap modulo `2^32`). -/
def ecma_number_to_uint32 : ENumber → Nat
  | .nan => 0
  | .val q => ((ratTruncToInt q) % (4294967296 : Int)).toNat

/-- Modelled from the spec: `ecma_utf8_string_to_number`, the engine's
decimal parser (digit runs parse to their value, anything else to NaN). -/
def ecma_utf8_string_to_number (bytes : List Nat) : ENumber :=
  if bytes ≠ [] ∧ bytes.all (fun b => decide (48 ≤ b) && decide (b ≤ 57)) then
    .val ((bytes.foldl (fun a b => a * 10 + (b - 48)) 0 : Nat) : ℚ)
  else .nan

/-- Logical bytes of a descriptor (§4.4 of the spec): the byte sequence a
successful materialization produces, per container. -/
def ecma_string_materialize (env : LitEnv) (st : EcmaState) (s : EcmaString) : List Nat :=
  match s.container with
  | .litTable => (lit_get_literal_by_cp env s.u).charsetBytes
  | .magicString => env.magic.getD s.u []
  | .magicStringEx => env.magicEx.getD s.u []
  | .uint32InDesc => ecma_uint32_to_utf8_string s.u
  | .heapNumber => ecma_number_to_utf8_string (st.getNum s.u)
  | .heapChunks =>
    let c := st.getChunk s.u
    c.bytes.take c.size

/-- `ecma_string_get_number_in_desc_size`: decimal size of the uint32
stored in the descriptor, computed by the ascending-powers loop of the
source (`size` starts at 1, increments while `size < 10` and
`n >= nums_with_ascending_length[size]`). -/
def ecma_string_get_number_in_desc_size (n : Nat) : Nat :=
  go 1 9
where
  /-- Loop of `ecma_string_get_number_in_desc_size`; `fuel = 10 - size`
  renders the `size < max_uint32_len` bound. -/
  go (size fuel : Nat) : Nat :=
    match fuel with
    | 0 => size
    | fuel + 1 => if 10 ^ size ≤ n then go (size + 1) fuel else size

/-- `ecma_string_get_size`: byte-size of the logical string, per
container (stored for HEAP_CHUNKS, table lookup for literal and magic
variants, re-formatting for the numeric variants). -/
def ecma_string_get_size (env : LitEnv) (st : EcmaState) (s : EcmaString) : Nat :=
  match s.container with
  | .litTable => (lit_get_literal_by_cp env s.u).charsetBytes.length
  | .magicString => (env.magic.getD s.u []).length
  | .magicStringEx => (env.magicEx.getD s.u []).length
  | .uint32InDesc => ecma_string_get_number_in_desc_size s.u
  | .heapNumber => (ecma_number_to_utf8_string (st.getNum s.u)).length
  | .heapChunks => (st.getChunk s.u).size

/-- `ecma_string_get_length`: code-unit count of the logical string. -/
def ecma_string_get_length (env : LitEnv) (st : EcmaState) (s : EcmaString) : Nat :=
  match s.container with
  | .litTable => lit_utf8_string_length (lit_get_literal_by_cp env s.u).charsetBytes
  | .magicString => lit_utf8_string_length (env.magic.getD s.u [])
  | .magicStringEx => lit_utf8_string_length (env.magicEx.getD s.u [])
  | .uint32InDesc => ecma_string_get_number_in_desc_size s.u
  | .heapNumber => (ecma_number_to_utf8_string (st.getNum s.u)).length
  | .heapChunks => (st.getChunk s.u).length

/-- `ecma_string_to_utf8_string`: copy the string's bytes into a
caller-supplied buffer.  The buffer is the list, its size its length; on
success the written bytes replace the buffer's prefix and the byte count
is returned; on underflow (or a zero-sized buffer) the negated required
size is returned and the buffer is untouched. -/
def ecma_string_to_utf8_string (env : LitEnv) (st : EcmaState) (s : EcmaString)
    (buffer : List Nat) : Int × List Nat :=
  let required := ecma_string_get_size env st s
  if required > buffer.length ∨ buffer.length = 0 then
    (-(required : Int), buffer)
  else
    let written : List Nat :=
      match s.container with
      | .heapChunks =>
        let c := st.getChunk s.u
        c.bytes.take c.size
      | .litTable => (lit_get_literal_by_cp env s.u).charsetBytes
      | .uint32InDesc => ecma_uint32_to_utf8_string s.u
      | .heapNumber => ecma_number_to_utf8_string (st.getNum s.u)
      | .magicString => env.magic.getD s.u []
      | .magicStringEx => env.magicEx.getD s.u []
    ((required : Int), written ++ buffer.drop written.length)

/-- `strncmp(a, b, n) == 0`: byte comparison that stops at the first pair
of differing bytes, at a NUL byte, or after `n` bytes. -/
def strncmp_is_eq : List Nat → List Nat → Nat → Bool
  | _, _, 0 => true
  | [], _, _ + 1 => true
  | _ :: _, [], _ + 1 => true
  | x :: xs, y :: ys, n + 1 =>
    if x ≠ y then false
    else if x = 0 then true
    else strncmp_is_eq xs ys n

/-- Byte pointer obtained by the longpath comparator for one operand:
direct for HEAP_CHUNKS and LIT_TABLE, otherwise a fresh heap buffer of
`size` bytes filled by `ecma_string_to_utf8_string`. -/
def ecma_compare_get_bytes (env : LitEnv) (st : EcmaState) (s : EcmaString)
    (size : Nat) : List Nat :=
  match s.container with
  | .heapChunks => (st.getChunk s.u).bytes
  | .litTable => (lit_get_literal_by_cp env s.u).charsetBytes
  | _ => (ecma_string_to_utf8_string env st s (List.replicate size 0)).2

/-- `ecma_compare_ecma_strings_longpath`. -/
def ecma_compare_ecma_strings_longpath (env : LitEnv) (st : EcmaState)
    (s1 s2 : EcmaString) : Bool :=
  if s1.container = s2.container ∧
      (s1.container = .litTable ∨ s1.container = .magicString ∨
        s1.container = .magicStringEx ∨ s1.container = .uint32InDesc) then
    -- distinct interned identities imply distinct content
    false
  else
    let string1_size := ecma_string_get_size env st s1
    let string2_size := ecma_string_get_size env st s2
    if string1_size ≠ string2_size then false
    else if string1_size = 0 then true
    else if s1.container = s2.container then
      match s1.container with
      | .heapNumber =>
        let n1 := st.getNum s1.u
        let n2 := st.getNum s2.u
        if ecma_number_is_nan n1 && ecma_number_is_nan n2 then true
        else ecma_number_eq n1 n2
      | .heapChunks =>
        let c1 := st.getChunk s1.u
        let c2 := st.getChunk s2.u
        if c1.length ≠ c2.length then false
        else strncmp_is_eq c1.bytes c2.bytes string1_size
      | _ => false -- JERRY_UNREACHABLE
    else
      strncmp_is_eq (ecma_compare_get_bytes env st s1 string1_size)
        (ecma_compare_get_bytes env st s2 string1_size) string1_size

/-- `ecma_compare_ecma_strings`: hash-gated fast path, then the common
payload word, then the longpath. -/
def ecma_compare_ecma_strings (env : LitEnv) (st : EcmaState)
    (s1 s2 : EcmaString) : Bool :=
  if s1.hash ≠ s2.hash then false
  else if s1.container = s2.container ∧ s1.u = s2.u then true
  else ecma_compare_ecma_strings_longpath env st s1 s2

/-- `ecma_init_ecma_string_from_magic_string_id`. -/
def ecma_init_ecma_string_from_magic_string_id (env : LitEnv) (id : Nat) : EcmaString :=
  { refs := 1
    container := .magicString
    hash := lit_utf8_string_calc_hash (env.magic.getD id [])
    u := id }

/-- `ecma_init_ecma_string_from_magic_string_ex_id`. -/
def ecma_init_ecma_string_from_magic_string_ex_id (env : LitEnv) (id : Nat) : EcmaString :=
  { refs := 1
    container := .magicStringEx
    hash := lit_utf8_string_calc_hash (env.magicEx.getD id [])
    u := id }

/-- `ecma_init_ecma_string_from_lit_cp`. -/
def ecma_init_ecma_string_from_lit_cp (env : LitEnv) (cp : Nat) : EcmaString :=
  match lit_get_literal_by_cp env cp with
  | .magicRef id => ecma_init_ecma_string_from_magic_string_id env id
  | .magicExRef id => ecma_init_ecma_string_from_magic_string_ex_id env id
  | .charset r => { refs := 1, container := .litTable, hash := r.hash, u := cp }

/-- `ecma_new_ecma_string_from_magic_string_id` (and
`ecma_get_magic_string`). -/
def ecma_new_ecma_string_from_magic_string_id (env : LitEnv) (st : EcmaState)
    (id : Nat) : EcmaState × Nat :=
  st.allocStr (ecma_init_ecma_string_from_magic_string_id env id)

/-- `ecma_new_ecma_string_from_magic_string_ex_id` (and
`ecma_get_magic_string_ex`). -/
def ecma_new_ecma_string_from_magic_string_ex_id (env : LitEnv) (st : EcmaState)
    (id : Nat) : EcmaState × Nat :=
  st.allocStr (ecma_init_ecma_string_from_magic_string_ex_id env id)

/-- `ecma_new_ecma_string_from_lit_cp`. -/
def ecma_new_ecma_string_from_lit_cp (env : LitEnv) (st : EcmaState)
    (cp : Nat) : EcmaState × Nat :=
  st.allocStr (ecma_init_ecma_string_from_lit_cp env cp)

/-- `ecma_new_ecma_string_from_utf8`: canonicalize through the magic
tables, otherwise allocate a heap chunk (uint16 header fields are the
truncated size and code-unit length) and copy the bytes. -/
def ecma_new_ecma_string_from_utf8 (env : LitEnv) (st : EcmaState)
    (bytes : List Nat) : EcmaState × Nat :=
  match lit_is_utf8_string_magic env bytes with
  | some id => ecma_new_ecma_string_from_magic_string_id env st id
  | none =>
    match lit_is_ex_utf8_string_magic env bytes with
    | some id => ecma_new_ecma_string_from_magic_string_ex_id env st id
    | none =>
      let desc : EcmaString :=
        { refs := 1
          container := .heapChunks
          hash := lit_utf8_string_calc_hash bytes
          u := st.chunks.length }
      let block : EcmaHeapChunk :=
        { size := bytes.length % 65536
          length := lit_utf8_string_length bytes % 65536
          bytes := bytes }
      (((st.allocChunk block).1.allocStr desc).1, st.strings.length)

/-- `ecma_new_ecma_string_from_uint32`. -/
def ecma_new_ecma_string_from_uint32 (st : EcmaState) (n : Nat) : EcmaState × Nat :=
  st.allocStr
    { refs := 1
      container := .uint32InDesc
      hash := lit_utf8_string_calc_hash (ecma_uint32_to_utf8_string n)
      u := n }

/-- `ecma_new_ecma_string_from_number`: uint32 round-trip check, then
magic canonicalization of the formatted bytes, then a heap number cell. -/
def ecma_new_ecma_string_from_number (env : LitEnv) (st : EcmaState)
    (num : ENumber) : EcmaState × Nat :=
  let uint32_num := ecma_number_to_uint32 num
  if ecma_number_eq num (ecma_uint32_to_number uint32_num) then
    ecma_new_ecma_string_from_uint32 st uint32_num
  else
    let str_buf := ecma_number_to_utf8_string num
    match lit_is_utf8_string_magic env str_buf with
    | some id => ecma_new_ecma_string_from_magic_string_id env st id
    | none =>
      match lit_is_ex_utf8_string_magic env str_buf with
      | some id => ecma_new_ecma_string_from_magic_string_ex_id env st id
      | none =>
        let desc : EcmaString :=
          { refs := 1
            container := .heapNumber
            hash := lit_utf8_string_calc_hash str_buf
            u := st.numbers.length }
        (((st.allocNum num).1.allocStr desc).1, st.strings.length)

/-- `ecma_string_to_number`. -/
def ecma_string_to_number (env : LitEnv) (st : EcmaState) (s : EcmaString) : ENumber :=
  match s.container with
  | .uint32InDesc => ecma_uint32_to_number s.u
  | .heapNumber => st.getNum s.u
  | _ =>
    let string_size := ecma_string_get_size env st s
    if string_size = 0 then .val 0
    else ecma_utf8_string_to_number (ecma_string_materialize env st s)

/-- `ecma_copy_ecma_string`: copy a descriptor.  The HEAP_CHUNKS arm
reproduces the source exactly: the descriptor is copied wholesale (the
reference counter is not reset) and after the chunk block is cloned the
*original* block's pointer is stored into the copy
(`ECMA_SET_NON_NULL_POINTER (new_str_p->u.collection_cp, data_p)`). -/
def ecma_copy_ecma_string (env : LitEnv) (st : EcmaState) (p : Nat) : EcmaState × Nat :=
  let s := st.getStr p
  match s.container with
  | .litTable | .uint32InDesc | .magicString | .magicStringEx =>
    st.allocStr { s with refs := 1 }
  | .heapNumber =>
    ecma_new_ecma_string_from_number env st (st.getNum s.u)
  | .heapChunks =>
    let (st1, newp) := st.allocStr s
    let (st2, _newcp) := st1.allocChunk (st.getChunk s.u)
    (st2.setStr newp { s with u := s.u }, newp)

/-- `ecma_copy_or_ref_ecma_string`: increment the reference counter; on
wrap-around restore it, invalidate the lookup caches and run the GC (the
opaque escape hatch `gc`), then reuse the descriptor if its refcount
dropped, else deep-copy it. -/
def ecma_copy_or_ref_ecma_string (env : LitEnv) (gc : EcmaState → EcmaState)
    (st : EcmaState) (p : Nat) : EcmaState × Nat :=
  let s := st.getStr p
  if (s.refs + 1) % ECMA_STRING_REFS_LIMIT = 0 then
    -- reference counter has overflowed; refs-- restores the old value
    let current_refs := s.refs
    let st1 := gc st
    if (st1.getStr p).refs = current_refs then
      ecma_copy_ecma_string env st1 p
    else
      (st1.setStr p { st1.getStr p with
        refs := ((st1.getStr p).refs + 1) % ECMA_STRING_REFS_LIMIT }, p)
  else
    (st.setStr p { s with refs := (s.refs + 1) % ECMA_STRING_REFS_LIMIT }, p)

/-- `ecma_deref_ecma_string`: decrement; at zero free the owned payload
and the descriptor. -/
def ecma_deref_ecma_string (st : EcmaState) (p : Nat) : EcmaState :=
  let s := st.getStr p
  if s.refs - 1 ≠ 0 then st.setStr p { s with refs := s.refs - 1 }
  else
    let st1 :=
      match s.container with
      | .heapChunks => st.freeChunk s.u
      | .heapNumber => st.freeNum s.u
      | _ => st
    st1.freeStr p

/-- `ecma_concat_ecma_strings`: return the other operand (via
copy-or-ref) when one is empty, else build one heap chunk holding both
materializations, with truncated uint16 header fields and the combined
hash. -/
def ecma_concat_ecma_strings (env : LitEnv) (gc : EcmaState → EcmaState)
    (st : EcmaState) (p1 p2 : Nat) : EcmaState × Nat :=
  let s1 := st.getStr p1
  let s2 := st.getStr p2
  let str1_size := ecma_string_get_size env st s1
  let str2_size := ecma_string_get_size env st s2
  if str1_size = 0 then ecma_copy_or_ref_ecma_string env gc st p2
  else if str2_size = 0 then ecma_copy_or_ref_ecma_string env gc st p1
  else
    let new_size := str1_size + str2_size
    -- the two ecma_string_to_utf8_string calls fill the block's regions
    let buf1 := (ecma_string_to_utf8_string env st s1 (List.replicate str1_size 0)).2
    let buf2 := (ecma_string_to_utf8_string env st s2 (List.replicate str2_size 0)).2
    let block : EcmaHeapChunk :=
      { size := new_size % 65536
        length := (ecma_string_get_length env st s1 + ecma_string_get_length env st s2) % 65536
        bytes := buf1.take str1_size ++ buf2.take str2_size }
    let desc : EcmaString :=
      { refs := 1
        container := .heapChunks
        hash := lit_utf8_string_hash_combine s1.hash (buf2.take str2_size)
        u := st.chunks.length }
    (((st.allocChunk block).1.allocStr desc).1, st.strings.length)

/-- `ecma_string_get_array_index`: fast path for UINT32_IN_DESC, else
round-trip through ToUint32 and compare; both paths reject the reserved
sentinel.  Returns (state, is-array-index, out-index). -/
def ecma_string_get_array_index (env : LitEnv) (st : EcmaState)
    (s : EcmaString) : EcmaState × Bool × Nat :=
  if s.container = .uint32InDesc then
    let out := s.u
    (st, decide (out ≠ ECMA_MAX_VALUE_OF_VALID_ARRAY_INDEX), out)
  else
    let num := ecma_string_to_number env st s
    let out := ecma_number_to_uint32 num
    let (st1, pt) := ecma_new_ecma_string_from_uint32 st out
    let is_array_index := ecma_compare_ecma_strings env st1 s (st1.getStr pt)
    let st2 := ecma_deref_ecma_string st1 pt
    (st2, is_array_index && decide (out ≠ ECMA_MAX_VALUE_OF_VALID_ARRAY_INDEX), out)

/-- `ecma_is_string_magic`: by tag only; any non-MAGIC container answers
false (the longpath scan lives inside a debug assertion).  The id out
parameter is rendered as `Option`. -/
def ecma_is_string_magic (s : EcmaString) : Option Nat :=
  if s.container = .magicString then some s.u else none

/-- Cursor advance of `ecma_string_substr`: step over one code unit using
the codec's size-of-first-byte helper. -/
def utf8AdvanceOne (b : List Nat) (o : Nat) : Nat :=
  o + lit_get_unicode_char_size_by_utf8_first_byte (b.getD o 0)

/-- Cursor advance over `n` code units. -/
def utf8Advance (b : List Nat) (o : Nat) : Nat → Nat
  | 0 => o
  | n + 1 => utf8Advance b (utf8AdvanceOne b o) n

/-- `ecma_string_substr`: materialize, walk `start_pos` code units, then
`end_pos - start_pos` more, and construct a new string from the byte
range; for `start_pos >= end_pos` construct from the empty slice. -/
def ecma_string_substr (env : LitEnv) (st : EcmaState) (s : EcmaString)
    (start_pos end_pos : Nat) : EcmaState × Nat :=
  if start_pos < end_pos then
    let b := ecma_string_materialize env st s
    let start_off := utf8Advance b 0 start_pos
    let end_off := utf8Advance b start_off (end_pos - start_pos)
    ecma_new_ecma_string_from_utf8 env st ((b.drop start_off).take (end_off - start_off))
  else
    ecma_new_ecma_string_from_utf8 env st []

/-- State extension on the two heap areas (allocation only appends and a
refcount update leaves them alone); materialization and sizes of valid
descriptors are stable under it. -/
def HeapGrows (st st' : EcmaState) : Prop :=
  (∃ t, st'.chunks = st.chunks ++ t) ∧ (∃ t, st'.numbers = st.numbers ++ t)

/-- Descriptor-pool extension (no slot of the old pool is touched). -/
def PoolGrows (st st' : EcmaState) : Prop :=
  ∃ t, st'.strings = st.strings ++ t

/-- Well-formedness of the injected environment: the magic tables are
duplicate-free and the built-in table holds the empty string
(`LIT_MAGIC_STRING__EMPTY`). -/
def wfEnv (env : LitEnv) : Prop :=
  env.magic.Nodup ∧ env.magicEx.Nodup ∧ [] ∈ env.magic

/-- Well-formedness of one descriptor in a state: the cached hash is the
engine hash of the logical bytes (invariant 3), the reported byte-size
and code-unit length agree with the logical bytes (invariant 5), and the
payload pointers and ids are live. -/
def wfString (env : LitEnv) (st : EcmaState) (s : EcmaString) : Prop :=
  s.hash = lit_utf8_string_calc_hash (ecma_string_materialize env st s) ∧
  ecma_string_get_size env st s = (ecma_string_materialize env st s).length ∧
  ecma_string_get_length env st s =
    lit_utf8_string_length (ecma_string_materialize env st s) ∧
  (s.container = .magicString → s.u < env.magic.length) ∧
  (s.container = .magicStringEx → s.u < env.magicEx.length) ∧
  (s.container = .heapChunks → s.u < st.chunks.length) ∧
  (s.container = .heapNumber → s.u < st.numbers.length)

/-- Containers whose descriptors the completeness lemma of the comparator
covers (everything the byte-slice constructors produce). -/
def comparableContainer (s : EcmaString) : Prop :=
  s.container = .magicString ∨ s.container = .magicStringEx ∨ s.container = .heapChunks

/-- Concrete external environment used by witnesses: the built-in magic
table holds the empty string (id 0) and `"length"` (id 1); one extended
entry `"foo"`; one charset literal `"ab"`. -/
def envC : LitEnv :=
  { magic := [[], [108, 101, 110, 103, 116, 104]]
    magicEx := [[102, 111, 111]]
    lits := [.charset ⟨[97, 98], lit_utf8_string_calc_hash [97, 98]⟩] }

/-- Empty engine state. -/
def st0 : EcmaState := ⟨[], [], []⟩

/-- State for the C1 evaluation: one HEAP_CHUNKS string `"abc"` whose
reference counter sits at the wrap-around point. -/
def stC1 : EcmaState :=
  { strings := [some ⟨4294967295, .heapChunks, lit_utf8_string_calc_hash [97, 98, 99], 0⟩]
    chunks := [some ⟨3, 3, [97, 98, 99]⟩]
    numbers := [] }

/-- State for the C2 evaluation: two distinct, well-formed HEAP_CHUNKS
strings `[0, 8, 8]` and `[0, 16, 16]` (valid CESU-8, equal engine hash 0,
equal sizes and code-unit lengths, not magic). -/
def stC2 : EcmaState :=
  { strings := []
    chunks := [some ⟨3, 3, [0, 8, 8]⟩, some ⟨3, 3, [0, 16, 16]⟩]
    numbers := [] }

/-- State for the C4 witness: the heap-chunk strings `"ab"` and `"cd"`. -/
def stC4w : EcmaState :=
  { strings := [some ⟨1, .heapChunks, lit_utf8_string_calc_hash [97, 98], 0⟩,
                some ⟨1, .heapChunks, lit_utf8_string_calc_hash [99, 100], 1⟩]
    chunks := [some ⟨2, 2, [97, 98]⟩, some ⟨2, 2, [99, 100]⟩]
    numbers := [] }

/-- State for the C4 counterexample: the empty magic string and a
`"length"` magic descriptor at the refcount saturation point. -/
def stC4c : EcmaState :=
  { strings := [some ⟨1, .magicString, lit_utf8_string_calc_hash [], 0⟩,
                some ⟨4294967295, .magicString,
                  lit_utf8_string_calc_hash [108, 101, 110, 103, 116, 104], 1⟩]
    chunks := []
    numbers := [] }

/-- State for the C5 witness: well-formed heap-chunk strings `"leng"` and
`"th"` with correct cached hashes. -/
def stC5w : EcmaState :=
  { strings := [some ⟨1, .heapChunks, lit_utf8_string_calc_hash [108, 101, 110, 103], 0⟩,
                some ⟨1, .heapChunks, lit_utf8_string_calc_hash [116, 104], 1⟩]
    chunks := [some ⟨4, 4, [108, 101, 110, 103]⟩, some ⟨2, 2, [116, 104]⟩]
    numbers := [] }

/-- State for the C5 counterexample: the `"leng"` operand carries a WRONG
cached hash (77 instead of 242), violating the hash invariant the claim
omits. -/
def stC5c : EcmaState :=
  { strings := [some ⟨1, .heapChunks, 77, 0⟩,
                some ⟨1, .heapChunks, lit_utf8_string_calc_hash [116, 104], 1⟩]
    chunks := [some ⟨4, 4, [108, 101, 110, 103]⟩, some ⟨2, 2, [116, 104]⟩]
    numbers := [] }

/-- State for the C8 witness: the heap-chunk string `"abc"`. -/
def stC8w : EcmaState :=
  { strings := [some ⟨1, .heapChunks, lit_utf8_string_calc_hash [97, 98, 99], 0⟩]
    chunks := [some ⟨3, 3, [97, 98, 99]⟩]
    numbers := [] }

/-- Descriptor of the C8 witness string. -/
def sC8 : EcmaString := ⟨1, .heapChunks, lit_utf8_string_calc_hash [97, 98, 99], 0⟩

/-! ## Well-formedness and frame infrastructure -/

/-- Read-back of a pool slot just allocated. -/
theorem getD_append_self {α : Type} (l : List α) (x d : α) :
    (l ++ [x]).getD l.length d = x := by
  simp [List.getD_eq_getElem?_getD, List.getElem?_append_right]

/-- Read-back of an old slot after an append. -/
theorem getD_append_old {α : Type} (l t : List α) (d : α) (i : Nat)
    (h : i < l.length) : (l ++ t).getD i d = l.getD i d :=
  List.getD_append l t d i h

theorem getChunk_frame {st st' : EcmaState} (hg : HeapGrows st st') {p : Nat}
    (hp : p < st.chunks.length) : st'.getChunk p = st.getChunk p := by
  obtain ⟨⟨t, ht⟩, _⟩ := hg
  simp [EcmaState.getChunk, ht, List.getD_eq_getElem?_getD, List.getElem?_append_left hp]

theorem getNum_frame {st st' : EcmaState} (hg : HeapGrows st st') {p : Nat}
    (hp : p < st.numbers.length) : st'.getNum p = st.getNum p := by
  obtain ⟨_, ⟨t, ht⟩⟩ := hg
  simp [EcmaState.getNum, ht, List.getD_eq_getElem?_getD, List.getElem?_append_left hp]

theorem getStr_frame {st st' : EcmaState} (hg : PoolGrows st st') {p : Nat}
    (hp : p < st.strings.length) : st'.getStr p = st.getStr p := by
  obtain ⟨t, ht⟩ := hg
  simp [EcmaState.getStr, ht, List.getD_eq_getElem?_getD, List.getElem?_append_left hp]

theorem materialize_frame (env : LitEnv) {st st' : EcmaState} {s : EcmaString}
    (hg : HeapGrows st st')
    (hc : s.container = .heapChunks → s.u < st.chunks.length)
    (hn : s.container = .heapNumber → s.u < st.numbers.length) :
    ecma_string_materialize env st' s = ecma_string_materialize env st s := by
  cases h : s.container <;>
    simp_all [ecma_string_materialize, getChunk_frame hg, getNum_frame hg]

theorem get_size_frame (env : LitEnv) {st st' : EcmaState} {s : EcmaString}
    (hg : HeapGrows st st')
    (hc : s.container = .heapChunks → s.u < st.chunks.length)
    (hn : s.container = .heapNumber → s.u < st.numbers.length) :
    ecma_string_get_size env st' s = ecma_string_get_size env st s := by
  cases h : s.container <;>
    simp_all [ecma_string_get_size, getChunk_frame hg, getNum_frame hg]

theorem get_length_frame (env : LitEnv) {st st' : EcmaState} {s : EcmaString}
    (hg : HeapGrows st st')
    (hc : s.container = .heapChunks → s.u < st.chunks.length)
    (hn : s.container = .heapNumber → s.u < st.numbers.length) :
    ecma_string_get_length env st' s = ecma_string_get_length env st s := by
  cases h : s.container <;>
    simp_all [ecma_string_get_length, getChunk_frame hg, getNum_frame hg]

theorem wfString_frame (env : LitEnv) {st st' : EcmaState} {s : EcmaString}
    (hg : HeapGrows st st') (hw : wfString env st s) : wfString env st' s := by
  obtain ⟨h1, h2, h3, h4, h5, h6, h7⟩ := hw
  obtain ⟨⟨tc, htc⟩, ⟨tn, htn⟩⟩ := hg
  have hm := materialize_frame env ⟨⟨tc, htc⟩, ⟨tn, htn⟩⟩ h6 h7
  have hs := get_size_frame env ⟨⟨tc, htc⟩, ⟨tn, htn⟩⟩ h6 h7
  have hl := get_length_frame env ⟨⟨tc, htc⟩, ⟨tn, htn⟩⟩ h6 h7
  refine ⟨by rw [hm]; exact h1, by rw [hs, hm]; exact h2, by rw [hl, hm]; exact h3,
    h4, h5, ?_, ?_⟩
  · intro h
    have := h6 h
    simp [htc]
    omega
  · intro h
    have := h7 h
    simp [htn]
    omega

/-! ## Basic facts about the modelled externals -/

/-- The incremental hash agrees with hashing the concatenation. -/
theorem calc_hash_append (b1 b2 : List Nat) :
    lit_utf8_string_calc_hash (b1 ++ b2) =
      lit_utf8_string_hash_combine (lit_utf8_string_calc_hash b1) b2 := by
  simp [lit_utf8_string_calc_hash, lit_utf8_string_hash_combine, List.foldl_append]

/-- Code-unit length is additive over byte concatenation. -/
theorem lit_utf8_string_length_append (b1 b2 : List Nat) :
    lit_utf8_string_length (b1 ++ b2) =
      lit_utf8_string_length b1 + lit_utf8_string_length b2 := by
  simp [lit_utf8_string_length, List.filter_append]

/-- Code-unit length never exceeds byte length. -/
theorem lit_utf8_string_length_le (b : List Nat) :
    lit_utf8_string_length b ≤ b.length := by
  simpa [lit_utf8_string_length] using List.length_filter_le _ b

/-- The codec's unit width is at least one byte. -/
theorem char_size_pos (b : Nat) :
    1 ≤ lit_get_unicode_char_size_by_utf8_first_byte b := by
  unfold lit_get_unicode_char_size_by_utf8_first_byte
  repeat' split
  all_goals omega

/-- `strncmp` reports equality whenever the first `n` bytes agree. -/
theorem strncmp_is_eq_of_take_eq :
    ∀ (a b : List Nat) (n : Nat), a.take n = b.take n → strncmp_is_eq a b n = true := by
  intro a
  induction a with
  | nil => intro b n _; cases n <;> simp [strncmp_is_eq]
  | cons x xs ih =>
    intro b n h
    cases n with
    | zero => simp [strncmp_is_eq]
    | succ n =>
      cases b with
      | nil => simp at h
      | cons y ys =>
        simp only [List.take_succ_cons, List.cons.injEq] at h
        obtain ⟨rfl, hrest⟩ := h
        by_cases hy : x = 0
        · simp [strncmp_is_eq, hy]
        · simp [strncmp_is_eq, hy, ih ys n hrest]

/-! ## Cursor arithmetic of the substring walk -/

theorem utf8AdvanceOne_lt (b : List Nat) (o : Nat) : o < utf8AdvanceOne b o := by
  have := char_size_pos (b.getD o 0)
  simp only [utf8AdvanceOne]
  omega

theorem utf8Advance_add (b : List Nat) (o m n : Nat) :
    utf8Advance b o (m + n) = utf8Advance b (utf8Advance b o m) n := by
  induction m generalizing o with
  | zero => rw [Nat.zero_add]; rfl
  | succ m ih =>
    have h1 : m + 1 + n = (m + n) + 1 := by omega
    rw [h1]
    show utf8Advance b (utf8AdvanceOne b o) (m + n) =
      utf8Advance b (utf8Advance b (utf8AdvanceOne b o) m) n
    exact ih (utf8AdvanceOne b o)

theorem utf8Advance_ge (b : List Nat) (o n : Nat) : o + n ≤ utf8Advance b o n := by
  induction n generalizing o with
  | zero => simp [utf8Advance]
  | succ n ih =>
    have h1 := utf8AdvanceOne_lt b o
    have h2 := ih (utf8AdvanceOne b o)
    show o + (n + 1) ≤ utf8Advance b (utf8AdvanceOne b o) n
    omega

theorem utf8Advance_mono (b : List Nat) (o : Nat) {m n : Nat} (h : m ≤ n) :
    utf8Advance b o m ≤ utf8Advance b o n := by
  have h1 : n = m + (n - m) := by omega
  rw [h1, utf8Advance_add]
  have := utf8Advance_ge b (utf8Advance b o m) (n - m)
  omega

/-! ## Magic-table lookup facts -/

theorem magic_lookup_some {env : LitEnv} {bytes : List Nat} {id : Nat}
    (h : lit_is_utf8_string_magic env bytes = some id) :
    id < env.magic.length ∧ env.magic.getD id [] = bytes := by
  rw [lit_is_utf8_string_magic, List.findIdx?_eq_some_iff_findIdx_eq] at h
  obtain ⟨hlt, hfind⟩ := h
  refine ⟨hlt, ?_⟩
  have hfound : (env.magic.getD id [] == bytes) = true := by
    subst hfind
    rw [List.getD_eq_getElem?_getD, List.getElem?_eq_getElem (by omega), Option.getD_some]
    simpa using @List.findIdx_getElem _ (fun e => e == bytes) env.magic (by omega)
  exact beq_iff_eq.mp hfound

theorem magic_ex_lookup_some {env : LitEnv} {bytes : List Nat} {id : Nat}
    (h : lit_is_ex_utf8_string_magic env bytes = some id) :
    id < env.magicEx.length ∧ env.magicEx.getD id [] = bytes := by
  rw [lit_is_ex_utf8_string_magic, List.findIdx?_eq_some_iff_findIdx_eq] at h
  obtain ⟨hlt, hfind⟩ := h
  refine ⟨hlt, ?_⟩
  have hfound : (env.magicEx.getD id [] == bytes) = true := by
    subst hfind
    rw [List.getD_eq_getElem?_getD, List.getElem?_eq_getElem (by omega), Option.getD_some]
    simpa using @List.findIdx_getElem _ (fun e => e == bytes) env.magicEx (by omega)
  exact beq_iff_eq.mp hfound

theorem magic_lookup_of_mem {env : LitEnv} {bytes : List Nat}
    (h : bytes ∈ env.magic) : ∃ id, lit_is_utf8_string_magic env bytes = some id := by
  rcases hf : lit_is_utf8_string_magic env bytes with _ | id
  · rw [lit_is_utf8_string_magic, List.findIdx?_eq_none_iff] at hf
    have := hf bytes h
    simp at this
  · exact ⟨id, rfl⟩

/-! ## Allocation read-back -/

theorem getStr_allocStr (st : EcmaState) (s : EcmaString) :
    (st.allocStr s).1.getStr (st.allocStr s).2 = s := by
  simp [EcmaState.allocStr, EcmaState.getStr, getD_append_self]

theorem getChunk_allocChunk (st : EcmaState) (c : EcmaHeapChunk) :
    (st.allocChunk c).1.getChunk (st.allocChunk c).2 = c := by
  simp [EcmaState.allocChunk, EcmaState.getChunk, getD_append_self]

theorem allocStr_heapGrows (st : EcmaState) (s : EcmaString) :
    HeapGrows st (st.allocStr s).1 :=
  ⟨⟨[], by simp [EcmaState.allocStr]⟩, ⟨[], by simp [EcmaState.allocStr]⟩⟩

theorem allocChunk_heapGrows (st : EcmaState) (c : EcmaHeapChunk) :
    HeapGrows st (st.allocChunk c).1 :=
  ⟨⟨[some c], by simp [EcmaState.allocChunk]⟩, ⟨[], by simp [EcmaState.allocChunk]⟩⟩

theorem allocNum_heapGrows (st : EcmaState) (n : ENumber) :
    HeapGrows st (st.allocNum n).1 :=
  ⟨⟨[], by simp [EcmaState.allocNum]⟩, ⟨[some n], by simp [EcmaState.allocNum]⟩⟩

theorem setStr_heapGrows (st : EcmaState) (p : Nat) (s : EcmaString) :
    HeapGrows st (st.setStr p s) :=
  ⟨⟨[], by simp [EcmaState.setStr]⟩, ⟨[], by simp [EcmaState.setStr]⟩⟩

theorem allocStr_poolGrows (st : EcmaState) (s : EcmaString) :
    PoolGrows st (st.allocStr s).1 :=
  ⟨[some s], by simp [EcmaState.allocStr]⟩

theorem allocChunk_poolGrows (st : EcmaState) (c : EcmaHeapChunk) :
    PoolGrows st (st.allocChunk c).1 :=
  ⟨[], by simp [EcmaState.allocChunk]⟩

/-! ## Constructor specifications -/

/-- The descriptor built from a magic id is well formed and materializes
to the table entry. -/
theorem magic_desc_spec (env : LitEnv) (st : EcmaState) {id : Nat}
    (hid : id < env.magic.length) :
    ecma_string_materialize env st (ecma_init_ecma_string_from_magic_string_id env id) =
      env.magic.getD id [] ∧
    wfString env st (ecma_init_ecma_string_from_magic_string_id env id) := by
  refine ⟨rfl, rfl, rfl, rfl, ?_, ?_, ?_, ?_⟩ <;>
    simp [ecma_init_ecma_string_from_magic_string_id, hid]

/-- The descriptor built from an extended magic id is well formed and
materializes to the table entry. -/
theorem magic_ex_desc_spec (env : LitEnv) (st : EcmaState) {id : Nat}
    (hid : id < env.magicEx.length) :
    ecma_string_materialize env st (ecma_init_ecma_string_from_magic_string_ex_id env id) =
      env.magicEx.getD id [] ∧
    wfString env st (ecma_init_ecma_string_from_magic_string_ex_id env id) := by
  refine ⟨rfl, rfl, rfl, rfl, ?_, ?_, ?_, ?_⟩ <;>
    simp [ecma_init_ecma_string_from_magic_string_ex_id, hid]

/-- Specification of `ecma_new_ecma_string_from_utf8` for byte slices
that fit the uint16 header: the heap only grows, the fresh descriptor has
refs 1, lives in a magic, extended-magic or heap-chunk container,
materializes back to the input bytes and is well formed. -/
theorem from_utf8_spec (env : LitEnv) (st : EcmaState) (bytes : List Nat)
    (hwf : wfEnv env) (hlen : bytes.length ≤ 65535) :
    HeapGrows st (ecma_new_ecma_string_from_utf8 env st bytes).1 ∧
    PoolGrows st (ecma_new_ecma_string_from_utf8 env st bytes).1 ∧
    ((ecma_new_ecma_string_from_utf8 env st bytes).1.getStr
        (ecma_new_ecma_string_from_utf8 env st bytes).2).refs = 1 ∧
    (((ecma_new_ecma_string_from_utf8 env st bytes).1.getStr
        (ecma_new_ecma_string_from_utf8 env st bytes).2).container = .magicString ∨
      ((ecma_new_ecma_string_from_utf8 env st bytes).1.getStr
        (ecma_new_ecma_string_from_utf8 env st bytes).2).container = .magicStringEx ∨
      ((ecma_new_ecma_string_from_utf8 env st bytes).1.getStr
        (ecma_new_ecma_string_from_utf8 env st bytes).2).container = .heapChunks) ∧
    ecma_string_materialize env (ecma_new_ecma_string_from_utf8 env st bytes).1
      ((ecma_new_ecma_string_from_utf8 env st bytes).1.getStr
        (ecma_new_ecma_string_from_utf8 env st bytes).2) = bytes ∧
    wfString env (ecma_new_ecma_string_from_utf8 env st bytes).1
      ((ecma_new_ecma_string_from_utf8 env st bytes).1.getStr
        (ecma_new_ecma_string_from_utf8 env st bytes).2) := by
  rcases hm : lit_is_utf8_string_magic env bytes with _ | id
  · rcases hx : lit_is_ex_utf8_string_magic env bytes with _ | id
    · -- heap-chunk branch
      have hmod : bytes.length % 65536 = bytes.length := Nat.mod_eq_of_lt (by omega)
      have hlmod : lit_utf8_string_length bytes % 65536 = lit_utf8_string_length bytes := by
        have := lit_utf8_string_length_le bytes
        exact Nat.mod_eq_of_lt (by omega)
      have heq : ecma_new_ecma_string_from_utf8 env st bytes =
          (⟨st.strings ++
              [some ⟨1, .heapChunks, lit_utf8_string_calc_hash bytes, st.chunks.length⟩],
            st.chunks ++
              [some ⟨bytes.length % 65536, lit_utf8_string_length bytes % 65536, bytes⟩],
            st.numbers⟩, st.strings.length) := by
        simp [ecma_new_ecma_string_from_utf8, hm, hx, EcmaState.allocChunk, EcmaState.allocStr]
      rw [heq]
      have hstr : EcmaState.getStr
          ⟨st.strings ++
              [some ⟨1, .heapChunks, lit_utf8_string_calc_hash bytes, st.chunks.length⟩],
            st.chunks ++
              [some ⟨bytes.length % 65536, lit_utf8_string_length bytes % 65536, bytes⟩],
            st.numbers⟩ st.strings.length =
          ⟨1, .heapChunks, lit_utf8_string_calc_hash bytes, st.chunks.length⟩ := by
        simp [EcmaState.getStr, getD_append_self]
      rw [hstr]
      have hchunk : EcmaState.getChunk
          ⟨st.strings ++
              [some ⟨1, .heapChunks, lit_utf8_string_calc_hash bytes, st.chunks.length⟩],
            st.chunks ++
              [some ⟨bytes.length % 65536, lit_utf8_string_length bytes % 65536, bytes⟩],
            st.numbers⟩ st.chunks.length =
          ⟨bytes.length % 65536, lit_utf8_string_length bytes % 65536, bytes⟩ := by
        simp [EcmaState.getChunk, getD_append_self]
      have hmat : ecma_string_materialize env
          ⟨st.strings ++
              [some ⟨1, .heapChunks, lit_utf8_string_calc_hash bytes, st.chunks.length⟩],
            st.chunks ++
              [some ⟨bytes.length % 65536, lit_utf8_string_length bytes % 65536, bytes⟩],
            st.numbers⟩
          ⟨1, .heapChunks, lit_utf8_string_calc_hash bytes, st.chunks.length⟩ = bytes := by
        simp only [ecma_string_materialize, hchunk]
        simp [hmod, List.take_length]
      refine ⟨⟨⟨_, rfl⟩, ⟨[], by simp⟩⟩, ⟨_, rfl⟩, rfl, Or.inr (Or.inr rfl), hmat, ?_⟩
      refine ⟨by rw [hmat], ?_, ?_, by simp, by simp, ?_, by simp⟩
      · rw [hmat]
        simp only [ecma_string_get_size, hchunk]
        simp [hmod]
      · rw [hmat]
        simp only [ecma_string_get_length, hchunk]
        simp [hlmod]
      · intro _
        simp
    · -- extended-magic branch
      obtain ⟨hid, hentry⟩ := magic_ex_lookup_some hx
      simp only [ecma_new_ecma_string_from_utf8, hm, hx,
        ecma_new_ecma_string_from_magic_string_ex_id]
      rw [getStr_allocStr]
      refine ⟨allocStr_heapGrows _ _, allocStr_poolGrows _ _, rfl, Or.inr (Or.inl rfl),
        ?_, ?_⟩
      · rw [(magic_ex_desc_spec env _ hid).1, hentry]
      · exact (magic_ex_desc_spec env _ hid).2
  · -- built-in magic branch
    obtain ⟨hid, hentry⟩ := magic_lookup_some hm
    simp only [ecma_new_ecma_string_from_utf8, hm,
      ecma_new_ecma_string_from_magic_string_id]
    rw [getStr_allocStr]
    refine ⟨allocStr_heapGrows _ _, allocStr_poolGrows _ _, rfl, Or.inl rfl, ?_, ?_⟩
    · rw [(magic_desc_spec env _ hid).1, hentry]
    · exact (magic_desc_spec env _ hid).2

/-- Construction from the empty byte slice canonicalizes to the built-in
empty magic string. -/
theorem from_utf8_empty (env : LitEnv) (st : EcmaState) (hwf : wfEnv env) :
    ((ecma_new_ecma_string_from_utf8 env st []).1.getStr
        (ecma_new_ecma_string_from_utf8 env st []).2).container = .magicString ∧
    env.magic.getD ((ecma_new_ecma_string_from_utf8 env st []).1.getStr
        (ecma_new_ecma_string_from_utf8 env st []).2).u [] = [] := by
  obtain ⟨id, hid⟩ := magic_lookup_of_mem hwf.2.2
  simp only [ecma_new_ecma_string_from_utf8, hid,
    ecma_new_ecma_string_from_magic_string_id]
  rw [getStr_allocStr]
  exact ⟨rfl, (magic_lookup_some hid).2⟩

/-- Behaviour of `ecma_string_to_utf8_string`: on a large-enough non-empty
buffer the logical bytes are written and the byte-size returned; otherwise
the negated required size is returned and the buffer is untouched. -/
theorem to_utf8_spec (env : LitEnv) (st : EcmaState) (s : EcmaString)
    (buffer : List Nat) :
    (ecma_string_get_size env st s ≤ buffer.length ∧ buffer.length ≠ 0 →
      ecma_string_to_utf8_string env st s buffer =
        ((ecma_string_get_size env st s : Int),
          ecma_string_materialize env st s ++
            buffer.drop (ecma_string_materialize env st s).length)) ∧
    (ecma_string_get_size env st s > buffer.length ∨ buffer.length = 0 →
      ecma_string_to_utf8_string env st s buffer =
        (-(ecma_string_get_size env st s : Int), buffer)) := by
  constructor
  · rintro ⟨h1, h2⟩
    have hcond : ¬(ecma_string_get_size env st s > buffer.length ∨ buffer.length = 0) := by
      omega
    simp only [ecma_string_to_utf8_string, if_neg hcond]
    have hw : (match s.container with
        | .heapChunks =>
          (st.getChunk s.u).bytes.take (st.getChunk s.u).size
        | .litTable => (lit_get_literal_by_cp env s.u).charsetBytes
        | .uint32InDesc => ecma_uint32_to_utf8_string s.u
        | .heapNumber => ecma_number_to_utf8_string (st.getNum s.u)
        | .magicString => env.magic.getD s.u []
        | .magicStringEx => env.magicEx.getD s.u []) =
        ecma_string_materialize env st s := by
      cases hc : s.container <;> simp [ecma_string_materialize, hc]
    rw [hw]
  · intro h
    simp only [ecma_string_to_utf8_string, if_pos h]

/-- The non-overflow path of `ecma_copy_or_ref_ecma_string` bumps the
counter in place and returns the same descriptor. -/
theorem copy_or_ref_fast (env : LitEnv) (gc : EcmaState → EcmaState)
    (st : EcmaState) (p : Nat)
    (h : (st.getStr p).refs + 1 < ECMA_STRING_REFS_LIMIT) :
    ecma_copy_or_ref_ecma_string env gc st p =
      (st.setStr p { st.getStr p with refs := (st.getStr p).refs + 1 }, p) := by
  have hmod : ((st.getStr p).refs + 1) % ECMA_STRING_REFS_LIMIT = (st.getStr p).refs + 1 :=
    Nat.mod_eq_of_lt h
  simp [ecma_copy_or_ref_ecma_string, hmod]

theorem getStr_setStr_self (st : EcmaState) (p : Nat) (s : EcmaString)
    (hp : p < st.strings.length) : (st.setStr p s).getStr p = s := by
  simp [EcmaState.setStr, EcmaState.getStr, List.getD_eq_getElem?_getD,
    List.getElem?_set_self hp]

/-- A refcount change does not affect materialization. -/
theorem materialize_refs (env : LitEnv) (st : EcmaState) (s : EcmaString) (r : Nat) :
    ecma_string_materialize env st { s with refs := r } =
      ecma_string_materialize env st s := rfl

/-- A refcount change does not affect well-formedness. -/
theorem wfString_refs (env : LitEnv) (st : EcmaState) {s : EcmaString} (r : Nat)
    (hw : wfString env st s) : wfString env st { s with refs := r } := hw

/-- Materialization of a literal heap-chunk descriptor. -/
theorem materialize_mk_heapChunks (env : LitEnv) (st : EcmaState) (r h u : Nat) :
    ecma_string_materialize env st ⟨r, .heapChunks, h, u⟩ =
      (st.getChunk u).bytes.take (st.getChunk u).size := rfl

/-- Byte-size of a literal heap-chunk descriptor. -/
theorem get_size_mk_heapChunks (env : LitEnv) (st : EcmaState) (r h u : Nat) :
    ecma_string_get_size env st ⟨r, .heapChunks, h, u⟩ = (st.getChunk u).size := rfl

/-- Code-unit length of a literal heap-chunk descriptor. -/
theorem get_length_mk_heapChunks (env : LitEnv) (st : EcmaState) (r h u : Nat) :
    ecma_string_get_length env st ⟨r, .heapChunks, h, u⟩ = (st.getChunk u).length := rfl

/-- Specification of `ecma_concat_ecma_strings` for live, well-formed
operands below the saturation point whose combined size fits the uint16
header: the heap only grows, the result is live, well formed, and
materializes to the concatenation of the operands' bytes. -/
theorem concat_spec (env : LitEnv) (gc : EcmaState → EcmaState) (st : EcmaState)
    (p1 p2 : Nat)
    (hp1 : p1 < st.strings.length) (hp2 : p2 < st.strings.length)
    (hw1 : wfString env st (st.getStr p1)) (hw2 : wfString env st (st.getStr p2))
    (hr1 : (st.getStr p1).refs + 1 < ECMA_STRING_REFS_LIMIT)
    (hr2 : (st.getStr p2).refs + 1 < ECMA_STRING_REFS_LIMIT)
    (hsum : (ecma_string_materialize env st (st.getStr p1)).length +
        (ecma_string_materialize env st (st.getStr p2)).length ≤ 65535) :
    HeapGrows st (ecma_concat_ecma_strings env gc st p1 p2).1 ∧
    (ecma_concat_ecma_strings env gc st p1 p2).2 <
      (ecma_concat_ecma_strings env gc st p1 p2).1.strings.length ∧
    wfString env (ecma_concat_ecma_strings env gc st p1 p2).1
      ((ecma_concat_ecma_strings env gc st p1 p2).1.getStr
        (ecma_concat_ecma_strings env gc st p1 p2).2) ∧
    ecma_string_materialize env (ecma_concat_ecma_strings env gc st p1 p2).1
      ((ecma_concat_ecma_strings env gc st p1 p2).1.getStr
        (ecma_concat_ecma_strings env gc st p1 p2).2) =
      ecma_string_materialize env st (st.getStr p1) ++
        ecma_string_materialize env st (st.getStr p2) ∧
    (comparableContainer (st.getStr p1) → comparableContainer (st.getStr p2) →
      comparableContainer ((ecma_concat_ecma_strings env gc st p1 p2).1.getStr
        (ecma_concat_ecma_strings env gc st p1 p2).2)) := by
  by_cases hz1 : ecma_string_get_size env st (st.getStr p1) = 0
  · -- first operand empty: copy-or-ref the second
    have hm1 : ecma_string_materialize env st (st.getStr p1) = [] := by
      have := hw1.2.1
      rw [hz1] at this
      exact List.eq_nil_of_length_eq_zero this.symm
    have heq : ecma_concat_ecma_strings env gc st p1 p2 =
        (st.setStr p2 { st.getStr p2 with refs := (st.getStr p2).refs + 1 }, p2) := by
      rw [ecma_concat_ecma_strings]
      simp only [hz1, if_pos rfl]
      exact copy_or_ref_fast env gc st p2 hr2
    rw [heq]
    have hgrow : HeapGrows st (st.setStr p2 { st.getStr p2 with
        refs := (st.getStr p2).refs + 1 }) := setStr_heapGrows st p2 _
    have hget : (st.setStr p2 { st.getStr p2 with
        refs := (st.getStr p2).refs + 1 }).getStr p2 =
        { st.getStr p2 with refs := (st.getStr p2).refs + 1 } :=
      getStr_setStr_self st p2 _ hp2
    have hmat2 : ecma_string_materialize env (st.setStr p2 { st.getStr p2 with
        refs := (st.getStr p2).refs + 1 }) { st.getStr p2 with
        refs := (st.getStr p2).refs + 1 } =
        ecma_string_materialize env st (st.getStr p2) := by
      rw [materialize_refs]
      exact materialize_frame env hgrow hw2.2.2.2.2.2.1 hw2.2.2.2.2.2.2
    refine ⟨hgrow, ?_, ?_, ?_, ?_⟩
    · simpa [EcmaState.setStr] using hp2
    · rw [hget]
      exact wfString_frame env hgrow (wfString_refs env st _ hw2)
    · rw [hget, hmat2, hm1]
      simp
    · intro _ h2
      rw [hget]
      exact h2
  · by_cases hz2 : ecma_string_get_size env st (st.getStr p2) = 0
    · -- second operand empty: copy-or-ref the first
      have hm2 : ecma_string_materialize env st (st.getStr p2) = [] := by
        have := hw2.2.1
        rw [hz2] at this
        exact List.eq_nil_of_length_eq_zero this.symm
      have heq : ecma_concat_ecma_strings env gc st p1 p2 =
          (st.setStr p1 { st.getStr p1 with refs := (st.getStr p1).refs + 1 }, p1) := by
        rw [ecma_concat_ecma_strings]
        simp only [hz1, hz2, if_neg hz1, if_pos rfl]
        exact copy_or_ref_fast env gc st p1 hr1
      rw [heq]
      have hgrow : HeapGrows st (st.setStr p1 { st.getStr p1 with
          refs := (st.getStr p1).refs + 1 }) := setStr_heapGrows st p1 _
      have hget : (st.setStr p1 { st.getStr p1 with
          refs := (st.getStr p1).refs + 1 }).getStr p1 =
          { st.getStr p1 with refs := (st.getStr p1).refs + 1 } :=
        getStr_setStr_self st p1 _ hp1
      have hmat1 : ecma_string_materialize env (st.setStr p1 { st.getStr p1 with
          refs := (st.getStr p1).refs + 1 }) { st.getStr p1 with
          refs := (st.getStr p1).refs + 1 } =
          ecma_string_materialize env st (st.getStr p1) := by
        rw [materialize_refs]
        exact materialize_frame env hgrow hw1.2.2.2.2.2.1 hw1.2.2.2.2.2.2
      refine ⟨hgrow, ?_, ?_, ?_, ?_⟩
      · simpa [EcmaState.setStr] using hp1
      · rw [hget]
        exact wfString_frame env hgrow (wfString_refs env st _ hw1)
      · rw [hget, hmat1, hm2]
        simp
      · intro h1 _
        rw [hget]
        exact h1
    · -- both operands non-empty: one fresh heap chunk
      have hsz1 : ecma_string_get_size env st (st.getStr p1) =
          (ecma_string_materialize env st (st.getStr p1)).length := hw1.2.1
      have hsz2 : ecma_string_get_size env st (st.getStr p2) =
          (ecma_string_materialize env st (st.getStr p2)).length := hw2.2.1
      have hb1 : (ecma_string_to_utf8_string env st (st.getStr p1)
          (List.replicate (ecma_string_get_size env st (st.getStr p1)) 0)).2 =
          ecma_string_materialize env st (st.getStr p1) := by
        rw [(to_utf8_spec env st (st.getStr p1) _).1 (by simp; omega)]
        rw [hsz1]
        simp
      have hb2 : (ecma_string_to_utf8_string env st (st.getStr p2)
          (List.replicate (ecma_string_get_size env st (st.getStr p2)) 0)).2 =
          ecma_string_materialize env st (st.getStr p2) := by
        rw [(to_utf8_spec env st (st.getStr p2) _).1 (by simp; omega)]
        rw [hsz2]
        simp
      have ht1 : (ecma_string_materialize env st (st.getStr p1)).take
          (ecma_string_get_size env st (st.getStr p1)) =
          ecma_string_materialize env st (st.getStr p1) := by
        rw [hsz1]
        exact List.take_length _
      have ht2 : (ecma_string_materialize env st (st.getStr p2)).take
          (ecma_string_get_size env st (st.getStr p2)) =
          ecma_string_materialize env st (st.getStr p2) := by
        rw [hsz2]
        exact List.take_length _
      have heq : ecma_concat_ecma_strings env gc st p1 p2 =
          (⟨st.strings ++ [some ⟨1, .heapChunks,
              lit_utf8_string_hash_combine (st.getStr p1).hash
                (ecma_string_materialize env st (st.getStr p2)),
              st.chunks.length⟩],
            st.chunks ++ [some ⟨(ecma_string_get_size env st (st.getStr p1) +
                ecma_string_get_size env st (st.getStr p2)) % 65536,
              (ecma_string_get_length env st (st.getStr p1) +
                ecma_string_get_length env st (st.getStr p2)) % 65536,
              ecma_string_materialize env st (st.getStr p1) ++
                ecma_string_materialize env st (st.getStr p2)⟩],
            st.numbers⟩, st.strings.length) := by
        rw [ecma_concat_ecma_strings]
        simp only [hz1, hz2, if_neg hz1, if_neg hz2, hb1, hb2, ht1, ht2,
          EcmaState.allocChunk, EcmaState.allocStr, if_false]
      rw [heq]
      have hmod : (ecma_string_get_size env st (st.getStr p1) +
          ecma_string_get_size env st (st.getStr p2)) % 65536 =
          (ecma_string_materialize env st (st.getStr p1)).length +
            (ecma_string_materialize env st (st.getStr p2)).length := by
        rw [hsz1, hsz2]
        exact Nat.mod_eq_of_lt (by omega)
      have hlen1 : ecma_string_get_length env st (st.getStr p1) =
          lit_utf8_string_length (ecma_string_materialize env st (st.getStr p1)) :=
        hw1.2.2.1
      have hlen2 : ecma_string_get_length env st (st.getStr p2) =
          lit_utf8_string_length (ecma_string_materialize env st (st.getStr p2)) :=
        hw2.2.2.1
      have hlmod : (ecma_string_get_length env st (st.getStr p1) +
          ecma_string_get_length env st (st.getStr p2)) % 65536 =
          lit_utf8_string_length (ecma_string_materialize env st (st.getStr p1) ++
            ecma_string_materialize env st (st.getStr p2)) := by
        rw [hlen1, hlen2, lit_utf8_string_length_append]
        have u1 := lit_utf8_string_length_le (ecma_string_materialize env st (st.getStr p1))
        have u2 := lit_utf8_string_length_le (ecma_string_materialize env st (st.getStr p2))
        exact Nat.mod_eq_of_lt (by omega)
      have hstr : EcmaState.getStr
          ⟨st.strings ++ [some ⟨1, .heapChunks,
              lit_utf8_string_hash_combine (st.getStr p1).hash
                (ecma_string_materialize env st (st.getStr p2)),
              st.chunks.length⟩],
            st.chunks ++ [some ⟨(ecma_string_get_size env st (st.getStr p1) +
                ecma_string_get_size env st (st.getStr p2)) % 65536,
              (ecma_string_get_length env st (st.getStr p1) +
                ecma_string_get_length env st (st.getStr p2)) % 65536,
              ecma_string_materialize env st (st.getStr p1) ++
                ecma_string_materialize env st (st.getStr p2)⟩],
            st.numbers⟩ st.strings.length =
          ⟨1, .heapChunks,
            lit_utf8_string_hash_combine (st.getStr p1).hash
              (ecma_string_materialize env st (st.getStr p2)),
            st.chunks.length⟩ := by
        simp [EcmaState.getStr, getD_append_self]
      rw [hstr]
      have hchunk : EcmaState.getChunk
          ⟨st.strings ++ [some ⟨1, .heapChunks,
              lit_utf8_string_hash_combine (st.getStr p1).hash
                (ecma_string_materialize env st (st.getStr p2)),
              st.chunks.length⟩],
            st.chunks ++ [some ⟨(ecma_string_get_size env st (st.getStr p1) +
                ecma_string_get_size env st (st.getStr p2)) % 65536,
              (ecma_string_get_length env st (st.getStr p1) +
                ecma_string_get_length env st (st.getStr p2)) % 65536,
              ecma_string_materialize env st (st.getStr p1) ++
                ecma_string_materialize env st (st.getStr p2)⟩],
            st.numbers⟩ st.chunks.length =
          ⟨(ecma_string_get_size env st (st.getStr p1) +
              ecma_string_get_size env st (st.getStr p2)) % 65536,
            (ecma_string_get_length env st (st.getStr p1) +
              ecma_string_get_length env st (st.getStr p2)) % 65536,
            ecma_string_materialize env st (st.getStr p1) ++
              ecma_string_materialize env st (st.getStr p2)⟩ := by
        simp [EcmaState.getChunk, getD_append_self]
      have hmat : ecma_string_materialize env
          ⟨st.strings ++ [some ⟨1, .heapChunks,
              lit_utf8_string_hash_combine (st.getStr p1).hash
                (ecma_string_materialize env st (st.getStr p2)),
              st.chunks.length⟩],
            st.chunks ++ [some ⟨(ecma_string_get_size env st (st.getStr p1) +
                ecma_string_get_size env st (st.getStr p2)) % 65536,
              (ecma_string_get_length env st (st.getStr p1) +
                ecma_string_get_length env st (st.getStr p2)) % 65536,
              ecma_string_materialize env st (st.getStr p1) ++
                ecma_string_materialize env st (st.getStr p2)⟩],
            st.numbers⟩
          ⟨1, .heapChunks,
            lit_utf8_string_hash_combine (st.getStr p1).hash
              (ecma_string_materialize env st (st.getStr p2)),
            st.chunks.length⟩ =
          ecma_string_materialize env st (st.getStr p1) ++
            ecma_string_materialize env st (st.getStr p2) := by
        rw [materialize_mk_heapChunks, hchunk]
        show List.take ((ecma_string_get_size env st (st.getStr p1) +
            ecma_string_get_size env st (st.getStr p2)) % 65536)
          (ecma_string_materialize env st (st.getStr p1) ++
            ecma_string_materialize env st (st.getStr p2)) =
          ecma_string_materialize env st (st.getStr p1) ++
            ecma_string_materialize env st (st.getStr p2)
        rw [hmod, ← List.length_append]
        exact List.take_length _
      refine ⟨⟨⟨_, rfl⟩, ⟨[], by simp⟩⟩, by simp, ?_, hmat, ?_⟩
      · refine ⟨?_, ?_, ?_, by simp, by simp, ?_, by simp⟩
        · rw [hmat]
          show lit_utf8_string_hash_combine (st.getStr p1).hash
              (ecma_string_materialize env st (st.getStr p2)) = _
          rw [hw1.1, calc_hash_append]
        · rw [hmat]
          rw [get_size_mk_heapChunks, hchunk]
          show (ecma_string_get_size env st (st.getStr p1) +
              ecma_string_get_size env st (st.getStr p2)) % 65536 = _
          rw [hmod, List.length_append]
        · rw [hmat]
          rw [get_length_mk_heapChunks, hchunk]
          show (ecma_string_get_length env st (st.getStr p1) +
              ecma_string_get_length env st (st.getStr p2)) % 65536 = _
          rw [hlmod]
        · intro _
          simp
      · intro _ _
        exact Or.inr (Or.inr rfl)

/-! ## Comparator facts -/

theorem nodup_getD_inj {α : Type} [Inhabited α] {l : List α} (h : l.Nodup)
    {i j : Nat} (hi : i < l.length) (hj : j < l.length)
    (he : l.getD i default = l.getD j default) : i = j := by
  rw [List.getD_eq_getElem?_getD, List.getElem?_eq_getElem hi] at he
  rw [List.getD_eq_getElem?_getD, List.getElem?_eq_getElem hj] at he
  simp only [Option.getD_some] at he
  exact (List.Nodup.getElem_inj_iff h).mp he

theorem materialize_of_heapChunks (env : LitEnv) (st : EcmaState) {s : EcmaString}
    (hc : s.container = .heapChunks) :
    ecma_string_materialize env st s =
      (st.getChunk s.u).bytes.take (st.getChunk s.u).size := by
  obtain ⟨r, c, h, u⟩ := s
  cases hc
  rfl

theorem get_size_of_heapChunks (env : LitEnv) (st : EcmaState) {s : EcmaString}
    (hc : s.container = .heapChunks) :
    ecma_string_get_size env st s = (st.getChunk s.u).size := by
  obtain ⟨r, c, h, u⟩ := s
  cases hc
  rfl

theorem get_length_of_heapChunks (env : LitEnv) (st : EcmaState) {s : EcmaString}
    (hc : s.container = .heapChunks) :
    ecma_string_get_length env st s = (st.getChunk s.u).length := by
  obtain ⟨r, c, h, u⟩ := s
  cases hc
  rfl

theorem materialize_of_magic (env : LitEnv) (st : EcmaState) {s : EcmaString}
    (hc : s.container = .magicString) :
    ecma_string_materialize env st s = env.magic.getD s.u [] := by
  obtain ⟨r, c, h, u⟩ := s
  cases hc
  rfl

theorem materialize_of_magicEx (env : LitEnv) (st : EcmaState) {s : EcmaString}
    (hc : s.container = .magicStringEx) :
    ecma_string_materialize env st s = env.magicEx.getD s.u [] := by
  obtain ⟨r, c, h, u⟩ := s
  cases hc
  rfl

/-- The byte pointer the longpath obtains for an operand holds the
operand's logical bytes in its first `size` positions. -/
theorem take_compare_get_bytes (env : LitEnv) (st : EcmaState) {s : EcmaString}
    (hw : wfString env st s) (hpos : ecma_string_get_size env st s ≠ 0) :
    (ecma_compare_get_bytes env st s (ecma_string_get_size env st s)).take
      (ecma_string_get_size env st s) = ecma_string_materialize env st s := by
  have hsz : ecma_string_get_size env st s =
      (ecma_string_materialize env st s).length := hw.2.1
  have hgen : s.container ≠ .heapChunks → s.container ≠ .litTable →
      ecma_compare_get_bytes env st s (ecma_string_get_size env st s) =
        (ecma_string_to_utf8_string env st s
          (List.replicate (ecma_string_get_size env st s) 0)).2 := by
    intro h1 h2
    cases hc : s.container <;> simp_all [ecma_compare_get_bytes]
  have hbuf : (ecma_string_to_utf8_string env st s
      (List.replicate (ecma_string_get_size env st s) 0)).2 =
      ecma_string_materialize env st s := by
    rw [(to_utf8_spec env st s _).1 ⟨by simp, by simp [hpos]⟩]
    rw [hsz]
    simp
  cases hc : s.container
  case heapChunks =>
    have hb : ecma_compare_get_bytes env st s (ecma_string_get_size env st s) =
        (st.getChunk s.u).bytes := by
      simp [ecma_compare_get_bytes, hc]
    rw [hb, get_size_of_heapChunks env st hc, materialize_of_heapChunks env st hc]
  case litTable =>
    have hb : ecma_compare_get_bytes env st s (ecma_string_get_size env st s) =
        (lit_get_literal_by_cp env s.u).charsetBytes := by
      simp [ecma_compare_get_bytes, hc]
    have hm : ecma_string_materialize env st s =
        (lit_get_literal_by_cp env s.u).charsetBytes := by
      obtain ⟨r, c, h, u⟩ := s
      cases hc
      rfl
    rw [hb, hm, hsz, hm]
    exact List.take_length _
  all_goals {
    rw [hgen (by simp [hc]) (by simp [hc]), hbuf, hsz]
    exact List.take_length _
  }

/-- Completeness of the comparator on the containers the byte-slice
constructors produce: under the table and descriptor invariants, equal
logical bytes compare equal. -/
theorem compare_complete (env : LitEnv) (st : EcmaState) (s1 s2 : EcmaString)
    (hwf : wfEnv env) (hw1 : wfString env st s1) (hw2 : wfString env st s2)
    (hc1 : comparableContainer s1) (hc2 : comparableContainer s2)
    (hmat : ecma_string_materialize env st s1 = ecma_string_materialize env st s2) :
    ecma_compare_ecma_strings env st s1 s2 = true := by
  have hhash : s1.hash = s2.hash := by rw [hw1.1, hw2.1, hmat]
  have hsz : ecma_string_get_size env st s1 = ecma_string_get_size env st s2 := by
    rw [hw1.2.1, hw2.2.1, hmat]
  rw [ecma_compare_ecma_strings, if_neg (by simp [hhash])]
  by_cases hfast : s1.container = s2.container ∧ s1.u = s2.u
  · rw [if_pos hfast]
  · rw [if_neg hfast]
    have hA : ¬(s1.container = s2.container ∧
        (s1.container = .litTable ∨ s1.container = .magicString ∨
          s1.container = .magicStringEx ∨ s1.container = .uint32InDesc)) := by
      rintro ⟨hcc, hid⟩
      rcases hc1 with h1 | h1 | h1
      · -- both magic: table injectivity forces equal ids
        have h2 : s2.container = .magicString := by rw [← hcc, h1]
        have hu : s1.u = s2.u := by
          apply nodup_getD_inj hwf.1 (hw1.2.2.2.1 h1) (hw2.2.2.2.1 h2)
          show env.magic.getD s1.u default = env.magic.getD s2.u default
          rw [show (default : List Nat) = [] from rfl,
            ← materialize_of_magic env st h1, ← materialize_of_magic env st h2, hmat]
        exact hfast ⟨hcc, hu⟩
      · -- both extended magic
        have h2 : s2.container = .magicStringEx := by rw [← hcc, h1]
        have hu : s1.u = s2.u := by
          apply nodup_getD_inj hwf.2.1 (hw1.2.2.2.2.1 h1) (hw2.2.2.2.2.1 h2)
          show env.magicEx.getD s1.u default = env.magicEx.getD s2.u default
          rw [show (default : List Nat) = [] from rfl,
            ← materialize_of_magicEx env st h1, ← materialize_of_magicEx env st h2, hmat]
        exact hfast ⟨hcc, hu⟩
      · -- heap chunks is not in the interned-identity list
        rw [h1] at hid
        rcases hid with h | h | h | h <;> simp at h
    unfold ecma_compare_ecma_strings_longpath
    rw [if_neg hA]
    rw [if_neg (by simp [hsz])]
    by_cases h0 : ecma_string_get_size env st s1 = 0
    · rw [if_pos h0]
    · rw [if_neg h0]
      by_cases hcc : s1.container = s2.container
      · -- same container: must be HEAP_CHUNKS
        have hch1 : s1.container = .heapChunks := by
          rcases hc1 with h1 | h1 | h1
          · exact absurd ⟨hcc, Or.inr (Or.inl h1)⟩ hA
          · exact absurd ⟨hcc, Or.inr (Or.inr (Or.inl h1))⟩ hA
          · exact h1
        have hch2 : s2.container = .heapChunks := by rw [← hcc, hch1]
        rw [if_pos hcc]
        have hlen : (st.getChunk s1.u).length = (st.getChunk s2.u).length := by
          have e1 := get_length_of_heapChunks env st hch1
          have e2 := get_length_of_heapChunks env st hch2
          rw [← e1, ← e2, hw1.2.2.1, hw2.2.2.1, hmat]
        have htake : (st.getChunk s1.u).bytes.take (ecma_string_get_size env st s1) =
            (st.getChunk s2.u).bytes.take (ecma_string_get_size env st s1) := by
          have e1 : ecma_string_get_size env st s1 = (st.getChunk s1.u).size :=
            get_size_of_heapChunks env st hch1
          have e2 : ecma_string_get_size env st s1 = (st.getChunk s2.u).size := by
            rw [hsz]
            exact get_size_of_heapChunks env st hch2
          calc (st.getChunk s1.u).bytes.take (ecma_string_get_size env st s1)
              = ecma_string_materialize env st s1 := by
                rw [e1, ← materialize_of_heapChunks env st hch1]
            _ = ecma_string_materialize env st s2 := hmat
            _ = (st.getChunk s2.u).bytes.take (ecma_string_get_size env st s1) := by
                rw [e2, ← materialize_of_heapChunks env st hch2]
        simp only [hch1]
        rw [if_neg (by simp [hlen])]
        exact strncmp_is_eq_of_take_eq _ _ _ htake
      · -- cross-container byte comparison
        rw [if_neg hcc]
        apply strncmp_is_eq_of_take_eq
        have e2 : ecma_compare_get_bytes env st s2 (ecma_string_get_size env st s1) =
            ecma_compare_get_bytes env st s2 (ecma_string_get_size env st s2) := by
          rw [hsz]
        rw [e2]
        rw [take_compare_get_bytes env st hw1 h0,
          show (ecma_compare_get_bytes env st s2 (ecma_string_get_size env st s2)).take
              (ecma_string_get_size env st s1) =
            (ecma_compare_get_bytes env st s2 (ecma_string_get_size env st s2)).take
              (ecma_string_get_size env st s2) by rw [hsz]]
        rw [take_compare_get_bytes env st hw2 (by rw [← hsz]; exact h0)]
        exact hmat

/-- Specification of `ecma_string_substr`: the result is a fresh
well-formed string holding exactly the byte range between the cursor
positions of the two code-unit indices. -/
theorem substr_spec (env : LitEnv) (st : EcmaState) (s : EcmaString) (i j : Nat)
    (hwf : wfEnv env) (hij : i ≤ j)
    (hlen : (ecma_string_materialize env st s).length ≤ 65535) :
    HeapGrows st (ecma_string_substr env st s i j).1 ∧
    PoolGrows st (ecma_string_substr env st s i j).1 ∧
    ((ecma_string_substr env st s i j).1.getStr (ecma_string_substr env st s i j).2).refs = 1 ∧
    comparableContainer
      ((ecma_string_substr env st s i j).1.getStr (ecma_string_substr env st s i j).2) ∧
    ecma_string_materialize env (ecma_string_substr env st s i j).1
      ((ecma_string_substr env st s i j).1.getStr (ecma_string_substr env st s i j).2) =
      ((ecma_string_materialize env st s).drop
          (utf8Advance (ecma_string_materialize env st s) 0 i)).take
        (utf8Advance (ecma_string_materialize env st s) 0 j -
          utf8Advance (ecma_string_materialize env st s) 0 i) ∧
    wfString env (ecma_string_substr env st s i j).1
      ((ecma_string_substr env st s i j).1.getStr (ecma_string_substr env st s i j).2) := by
  by_cases hlt : i < j
  · have he : utf8Advance (ecma_string_materialize env st s)
        (utf8Advance (ecma_string_materialize env st s) 0 i) (j - i) =
        utf8Advance (ecma_string_materialize env st s) 0 j := by
      rw [← utf8Advance_add]
      congr 1
      omega
    have hslice : (((ecma_string_materialize env st s).drop
        (utf8Advance (ecma_string_materialize env st s) 0 i)).take
          (utf8Advance (ecma_string_materialize env st s) 0 j -
            utf8Advance (ecma_string_materialize env st s) 0 i)).length ≤ 65535 := by
      have h1 := List.length_take
        (utf8Advance (ecma_string_materialize env st s) 0 j -
          utf8Advance (ecma_string_materialize env st s) 0 i)
        ((ecma_string_materialize env st s).drop
          (utf8Advance (ecma_string_materialize env st s) 0 i))
      have h2 := List.length_drop
        (utf8Advance (ecma_string_materialize env st s) 0 i)
        (ecma_string_materialize env st s)
      omega
    have hred : ecma_string_substr env st s i j =
        ecma_new_ecma_string_from_utf8 env st
          (((ecma_string_materialize env st s).drop
            (utf8Advance (ecma_string_materialize env st s) 0 i)).take
              (utf8Advance (ecma_string_materialize env st s) 0 j -
                utf8Advance (ecma_string_materialize env st s) 0 i)) := by
      rw [ecma_string_substr, if_pos hlt, ← he]
    rw [hred]
    obtain ⟨g1, g2, g3, g4, g5, g6⟩ := from_utf8_spec env st _ hwf hslice
    exact ⟨g1, g2, g3, g4, g5, g6⟩
  · have hji : i = j := by omega
    subst hji
    have hred : ecma_string_substr env st s i i =
        ecma_new_ecma_string_from_utf8 env st [] := by
      rw [ecma_string_substr, if_neg hlt]
    rw [hred]
    obtain ⟨g1, g2, g3, g4, g5, g6⟩ := from_utf8_spec env st [] hwf (by simp)
    refine ⟨g1, g2, g3, g4, ?_, g6⟩
    rw [g5]
    simp

/-- Adjacent byte slices of one buffer concatenate to the enclosing
slice. -/
theorem slice_append (l : List Nat) {a b c : Nat} (hab : a ≤ b) (hbc : b ≤ c) :
    (l.drop a).take (b - a) ++ (l.drop b).take (c - b) = (l.drop a).take (c - a) := by
  have h1 : c - a = (b - a) + (c - b) := by omega
  have h2 : a + (b - a) = b := by omega
  rw [h1, List.take_add, List.drop_drop, h2]

theorem allocStr_ptr_lt (st : EcmaState) (s : EcmaString) :
    (st.allocStr s).2 < (st.allocStr s).1.strings.length := by
  simp [EcmaState.allocStr]

theorem from_utf8_ptr_lt (env : LitEnv) (st : EcmaState) (bytes : List Nat) :
    (ecma_new_ecma_string_from_utf8 env st bytes).2 <
      (ecma_new_ecma_string_from_utf8 env st bytes).1.strings.length := by
  rw [ecma_new_ecma_string_from_utf8]
  rcases lit_is_utf8_string_magic env bytes with _ | id
  · rcases lit_is_ex_utf8_string_magic env bytes with _ | id
    · simp [EcmaState.allocChunk, EcmaState.allocStr]
    · exact allocStr_ptr_lt _ _
  · exact allocStr_ptr_lt _ _

theorem substr_ptr_lt (env : LitEnv) (st : EcmaState) (s : EcmaString) (i j : Nat) :
    (ecma_string_substr env st s i j).2 <
      (ecma_string_substr env st s i j).1.strings.length := by
  rw [ecma_string_substr]
  split <;> apply from_utf8_ptr_lt

theorem poolGrows_length_le {st st' : EcmaState} (h : PoolGrows st st') :
    st.strings.length ≤ st'.strings.length := by
  obtain ⟨t, ht⟩ := h
  simp [ht]

/-! ## Claim theorems -/

/-- The concrete environment is well formed. -/
theorem wfEnv_envC : wfEnv envC := ⟨by decide, by decide, by decide⟩

/-- C3: behaviour of materialization into a caller buffer.  If the
logical byte-size fits the (non-empty) buffer, exactly the logical bytes
are written and the byte-size returned; otherwise the negated required
size is returned and the buffer is untouched. -/
theorem claim_C3 (env : LitEnv) (st : EcmaState) (s : EcmaString) (buffer : List Nat) :
    (ecma_string_get_size env st s ≤ buffer.length ∧ 0 < buffer.length →
      (ecma_string_to_utf8_string env st s buffer).1 = (ecma_string_get_size env st s : Int) ∧
      (ecma_string_to_utf8_string env st s buffer).2 =
        ecma_string_materialize env st s ++
          buffer.drop (ecma_string_materialize env st s).length) ∧
    (¬(ecma_string_get_size env st s ≤ buffer.length ∧ 0 < buffer.length) →
      (ecma_string_to_utf8_string env st s buffer).1 =
        -(ecma_string_get_size env st s : Int) ∧
      (ecma_string_to_utf8_string env st s buffer).2 = buffer) := by
  constructor
  · rintro ⟨h1, h2⟩
    rw [(to_utf8_spec env st s buffer).1 ⟨h1, by omega⟩]
    exact ⟨rfl, rfl⟩
  · intro h
    rw [(to_utf8_spec env st s buffer).2 (by omega)]
    exact ⟨rfl, rfl⟩

/-- Witness for C3 at the magic string `"length"`: a 6-byte buffer
succeeds byte-exactly, a 2-byte buffer reports `-6` and stays untouched. -/
theorem claim_C3_witness :
    ((ecma_string_get_size envC st0 ⟨1, .magicString, 0, 1⟩ ≤ 6 ∧ 0 < 6) ∧
      (ecma_string_to_utf8_string envC st0 ⟨1, .magicString, 0, 1⟩
          [0, 0, 0, 0, 0, 0]).1 =
        (ecma_string_get_size envC st0 ⟨1, .magicString, 0, 1⟩ : Int) ∧
      (ecma_string_to_utf8_string envC st0 ⟨1, .magicString, 0, 1⟩
          [0, 0, 0, 0, 0, 0]).2 =
        ecma_string_materialize envC st0 ⟨1, .magicString, 0, 1⟩ ++
          ([0, 0, 0, 0, 0, 0] : List Nat).drop
            (ecma_string_materialize envC st0 ⟨1, .magicString, 0, 1⟩).length) ∧
    (¬(ecma_string_get_size envC st0 ⟨1, .magicString, 0, 1⟩ ≤ 2 ∧ 0 < 2) ∧
      (ecma_string_to_utf8_string envC st0 ⟨1, .magicString, 0, 1⟩ [0, 0]).1 =
        -(ecma_string_get_size envC st0 ⟨1, .magicString, 0, 1⟩ : Int) ∧
      (ecma_string_to_utf8_string envC st0 ⟨1, .magicString, 0, 1⟩ [0, 0]).2 = [0, 0]) := by
  constructor
  · exact ⟨⟨by decide, by decide⟩,
      (claim_C3 envC st0 ⟨1, .magicString, 0, 1⟩ [0, 0, 0, 0, 0, 0]).1 ⟨by decide, by decide⟩⟩
  · exact ⟨by decide,
      (claim_C3 envC st0 ⟨1, .magicString, 0, 1⟩ [0, 0]).2 (by decide)⟩

/-- C10: for an empty logical string and a zero-sized buffer the return
value is `-0 = 0`, a non-negative value, and nothing is written, so a
caller that distinguishes success by sign sees success. -/
theorem claim_C10 (env : LitEnv) (st : EcmaState) (s : EcmaString)
    (hz : ecma_string_get_size env st s = 0) :
    (ecma_string_to_utf8_string env st s []).1 = 0 ∧
    (ecma_string_to_utf8_string env st s []).2 = [] ∧
    0 ≤ (ecma_string_to_utf8_string env st s []).1 := by
  have h := (to_utf8_spec env st s []).2 (by simp)
  rw [h, hz]
  norm_num

/-- Witness for C10 at the empty magic string. -/
theorem claim_C10_witness :
    ecma_string_get_size envC st0 ⟨1, .magicString, 0, 0⟩ = 0 ∧
    (ecma_string_to_utf8_string envC st0 ⟨1, .magicString, 0, 0⟩ []).1 = 0 ∧
    (ecma_string_to_utf8_string envC st0 ⟨1, .magicString, 0, 0⟩ []).2 = [] ∧
    0 ≤ (ecma_string_to_utf8_string envC st0 ⟨1, .magicString, 0, 0⟩ []).1 := by
  refine ⟨by decide, ?_⟩
  exact claim_C10 envC st0 ⟨1, .magicString, 0, 0⟩ (by decide)

/-- C6: constructing a string from the number obtained from a uint32
yields the packed UINT32_IN_DESC descriptor with refs 1, the stored
value, and the hash of the decimal bytes. -/
theorem claim_C6 (env : LitEnv) (st : EcmaState) (n : Nat) (hn : n < 4294967296) :
    (ecma_new_ecma_string_from_number env st (ecma_uint32_to_number n)).1.getStr
      (ecma_new_ecma_string_from_number env st (ecma_uint32_to_number n)).2 =
      ⟨1, .uint32InDesc, lit_utf8_string_calc_hash (ecma_uint32_to_utf8_string n), n⟩ := by
  have hconv : ecma_number_to_uint32 (ecma_uint32_to_number n) = n := by
    show ((ratTruncToInt (n : ℚ)) % (4294967296 : Int)).toNat = n
    rw [ratTruncToInt, Rat.num_natCast, Rat.den_natCast]
    rw [show ((1 : Nat) : Int) = 1 from rfl, Int.ediv_one]
    rw [Int.emod_eq_of_lt (by positivity) (by exact_mod_cast hn)]
    simp
  have hred : ecma_new_ecma_string_from_number env st (ecma_uint32_to_number n) =
      ecma_new_ecma_string_from_uint32 st n := by
    simp only [ecma_new_ecma_string_from_number, hconv]
    rw [if_pos (by simp [ecma_number_eq, ecma_uint32_to_number])]
  rw [hred, ecma_new_ecma_string_from_uint32, getStr_allocStr]

/-- Witness for C6 at `n = 42`. -/
theorem claim_C6_witness :
    (42 : Nat) < 4294967296 ∧
    (ecma_new_ecma_string_from_number envC st0 (ecma_uint32_to_number 42)).1.getStr
      (ecma_new_ecma_string_from_number envC st0 (ecma_uint32_to_number 42)).2 =
      ⟨1, .uint32InDesc, lit_utf8_string_calc_hash (ecma_uint32_to_utf8_string 42), 42⟩ :=
  ⟨by decide, claim_C6 envC st0 42 (by decide)⟩

/-- C7: the array-index test on a descriptor built from a uint32 takes
the UINT32_IN_DESC fast path: it stores the value in the out parameter
and accepts exactly the values below the reserved sentinel `2^32 - 1`. -/
theorem claim_C7 (env : LitEnv) (st : EcmaState) (n : Nat) (hn : n < 4294967296) :
    (n < 4294967295 →
      (ecma_string_get_array_index env
        (ecma_new_ecma_string_from_uint32 st n).1
        ((ecma_new_ecma_string_from_uint32 st n).1.getStr
          (ecma_new_ecma_string_from_uint32 st n).2)).2.1 = true ∧
      (ecma_string_get_array_index env
        (ecma_new_ecma_string_from_uint32 st n).1
        ((ecma_new_ecma_string_from_uint32 st n).1.getStr
          (ecma_new_ecma_string_from_uint32 st n).2)).2.2 = n) ∧
    (n = 4294967295 →
      (ecma_string_get_array_index env
        (ecma_new_ecma_string_from_uint32 st n).1
        ((ecma_new_ecma_string_from_uint32 st n).1.getStr
          (ecma_new_ecma_string_from_uint32 st n).2)).2.1 = false) := by
  have hget : (ecma_new_ecma_string_from_uint32 st n).1.getStr
      (ecma_new_ecma_string_from_uint32 st n).2 =
      ⟨1, .uint32InDesc, lit_utf8_string_calc_hash (ecma_uint32_to_utf8_string n), n⟩ := by
    rw [ecma_new_ecma_string_from_uint32, getStr_allocStr]
  rw [hget]
  constructor
  · intro h
    rw [ecma_string_get_array_index, if_pos rfl]
    refine ⟨?_, rfl⟩
    simp [ECMA_MAX_VALUE_OF_VALID_ARRAY_INDEX]
    omega
  · intro h
    rw [ecma_string_get_array_index, if_pos rfl]
    simp [ECMA_MAX_VALUE_OF_VALID_ARRAY_INDEX, h]

/-- Witness for C7 at `n = 7` and at the sentinel. -/
theorem claim_C7_witness :
    ((7 : Nat) < 4294967295 ∧
      (ecma_string_get_array_index envC
        (ecma_new_ecma_string_from_uint32 st0 7).1
        ((ecma_new_ecma_string_from_uint32 st0 7).1.getStr
          (ecma_new_ecma_string_from_uint32 st0 7).2)).2.1 = true ∧
      (ecma_string_get_array_index envC
        (ecma_new_ecma_string_from_uint32 st0 7).1
        ((ecma_new_ecma_string_from_uint32 st0 7).1.getStr
          (ecma_new_ecma_string_from_uint32 st0 7).2)).2.2 = 7) ∧
    (ecma_string_get_array_index envC
      (ecma_new_ecma_string_from_uint32 st0 4294967295).1
      ((ecma_new_ecma_string_from_uint32 st0 4294967295).1.getStr
        (ecma_new_ecma_string_from_uint32 st0 4294967295).2)).2.1 = false := by
  constructor
  · exact ⟨by decide, (claim_C7 envC st0 7 (by decide)).1 (by decide)⟩
  · exact (claim_C7 envC st0 4294967295 (by decide)).2 rfl

/-- Pool slot of the fresh descriptor after the chunk-branch double
allocation of the byte-slice constructor and of concatenation. -/
theorem getStr_allocChunk_allocStr (st : EcmaState) (c : EcmaHeapChunk) (s : EcmaString) :
    ((st.allocChunk c).1.allocStr s).1.getStr st.strings.length = s := by
  simp [EcmaState.allocChunk, EcmaState.allocStr, EcmaState.getStr, getD_append_self]

/-- C9 (amended): the empty byte slice canonicalizes to the MAGIC
variant; a heap-chunk result from a slice that fits the uint16 size field
has byte-size at least 1; and concatenation returns copy-or-ref of the
other operand whenever one operand's byte-size is 0. -/
theorem claim_C9_amended (env : LitEnv) (gc : EcmaState → EcmaState) (st : EcmaState)
    (bytes : List Nat) (pa pb : Nat) (hwf : wfEnv env) :
    (bytes = [] →
      ((ecma_new_ecma_string_from_utf8 env st bytes).1.getStr
        (ecma_new_ecma_string_from_utf8 env st bytes).2).container = .magicString) ∧
    (bytes.length ≤ 65535 →
      ((ecma_new_ecma_string_from_utf8 env st bytes).1.getStr
        (ecma_new_ecma_string_from_utf8 env st bytes).2).container = .heapChunks →
      1 ≤ ecma_string_get_size env (ecma_new_ecma_string_from_utf8 env st bytes).1
        ((ecma_new_ecma_string_from_utf8 env st bytes).1.getStr
          (ecma_new_ecma_string_from_utf8 env st bytes).2)) ∧
    (ecma_string_get_size env st (st.getStr pa) = 0 →
      ecma_concat_ecma_strings env gc st pa pb = ecma_copy_or_ref_ecma_string env gc st pb) ∧
    (ecma_string_get_size env st (st.getStr pa) ≠ 0 →
      ecma_string_get_size env st (st.getStr pb) = 0 →
      ecma_concat_ecma_strings env gc st pa pb = ecma_copy_or_ref_ecma_string env gc st pa) := by
  refine ⟨?_, ?_, ?_, ?_⟩
  · rintro rfl
    exact (from_utf8_empty env st hwf).1
  · intro hlen hchunk
    by_cases hbe : bytes = []
    · subst hbe
      rw [(from_utf8_empty env st hwf).1] at hchunk
      simp at hchunk
    · obtain ⟨_, _, _, _, hmat, hwfd⟩ := from_utf8_spec env st bytes hwf hlen
      rw [hwfd.2.1, hmat]
      have : bytes ≠ [] := hbe
      have hpos : 0 < bytes.length := List.length_pos.mpr this
      omega
  · intro hz
    rw [ecma_concat_ecma_strings]
    simp only [hz, eq_self_iff_true, if_true]
  · intro hz1 hz2
    rw [ecma_concat_ecma_strings]
    simp only [hz2, if_neg hz1, eq_self_iff_true, if_true]

/-- Witness for C9 at the empty slice, a 2-byte slice and an empty magic
operand. -/
theorem claim_C9_witness :
    ((ecma_new_ecma_string_from_utf8 envC st0 []).1.getStr
      (ecma_new_ecma_string_from_utf8 envC st0 []).2).container = .magicString ∧
    (((ecma_new_ecma_string_from_utf8 envC st0 [97, 98]).1.getStr
        (ecma_new_ecma_string_from_utf8 envC st0 [97, 98]).2).container = .heapChunks →
      1 ≤ ecma_string_get_size envC (ecma_new_ecma_string_from_utf8 envC st0 [97, 98]).1
        ((ecma_new_ecma_string_from_utf8 envC st0 [97, 98]).1.getStr
          (ecma_new_ecma_string_from_utf8 envC st0 [97, 98]).2)) ∧
    ecma_concat_ecma_strings envC id
      ⟨[some ⟨1, .magicString, lit_utf8_string_calc_hash [], 0⟩,
        some ⟨1, .magicString, lit_utf8_string_calc_hash [108, 101, 110, 103, 116, 104], 1⟩],
        [], []⟩ 0 1 =
      ecma_copy_or_ref_ecma_string envC id
        ⟨[some ⟨1, .magicString, lit_utf8_string_calc_hash [], 0⟩,
          some ⟨1, .magicString, lit_utf8_string_calc_hash [108, 101, 110, 103, 116, 104], 1⟩],
          [], []⟩ 1 := by
  refine ⟨?_, ?_, ?_⟩
  · exact (claim_C9_amended envC id st0 [] 0 0 wfEnv_envC).1 rfl
  · exact (claim_C9_amended envC id st0 [97, 98] 0 0 wfEnv_envC).2.1 (by decide)
  · exact (claim_C9_amended envC id
      ⟨[some ⟨1, .magicString, lit_utf8_string_calc_hash [], 0⟩,
        some ⟨1, .magicString, lit_utf8_string_calc_hash [108, 101, 110, 103, 116, 104], 1⟩],
        [], []⟩ [] 0 1 wfEnv_envC).2.2.1 (by decide)

/-- Counterexample for C9 as stated: a 65536-byte valid slice wraps the
uint16 size header to 0, producing a heap-chunk descriptor whose reported
byte-size is 0. -/
theorem getChunk_allocChunk_allocStr (st : EcmaState) (c : EcmaHeapChunk) (s : EcmaString) :
    ((st.allocChunk c).1.allocStr s).1.getChunk st.chunks.length = c := by
  simp [EcmaState.allocChunk, EcmaState.allocStr, EcmaState.getChunk, getD_append_self]

theorem claim_C9_counterexample :
    ((ecma_new_ecma_string_from_utf8 envC st0 (List.replicate 65536 97)).1.getStr
      (ecma_new_ecma_string_from_utf8 envC st0 (List.replicate 65536 97)).2).container =
      .heapChunks ∧
    ecma_string_get_size envC (ecma_new_ecma_string_from_utf8 envC st0 (List.replicate 65536 97)).1
      ((ecma_new_ecma_string_from_utf8 envC st0 (List.replicate 65536 97)).1.getStr
        (ecma_new_ecma_string_from_utf8 envC st0 (List.replicate 65536 97)).2) = 0 := by
  have hm : lit_is_utf8_string_magic envC (List.replicate 65536 97) = none := by
    rw [lit_is_utf8_string_magic, List.findIdx?_eq_none_iff]
    intro x hx
    apply beq_eq_false_iff_ne.mpr
    intro heq
    have hxl : x.length = 65536 := by rw [heq, List.length_replicate]
    have hmem : x = [] ∨ x = [108, 101, 110, 103, 116, 104] := by
      simpa [envC] using hx
    rcases hmem with rfl | rfl <;> simp at hxl
  have hx : lit_is_ex_utf8_string_magic envC (List.replicate 65536 97) = none := by
    rw [lit_is_ex_utf8_string_magic, List.findIdx?_eq_none_iff]
    intro x hx
    apply beq_eq_false_iff_ne.mpr
    intro heq
    have hxl : x.length = 65536 := by rw [heq, List.length_replicate]
    have hmem : x = [102, 111, 111] := by
      simpa [envC] using hx
    rw [hmem] at hxl
    simp at hxl
  constructor
  · simp only [ecma_new_ecma_string_from_utf8, hm, hx]
    rw [getStr_allocChunk_allocStr]
  · simp only [ecma_new_ecma_string_from_utf8, hm, hx]
    rw [getStr_allocChunk_allocStr, get_size_mk_heapChunks, getChunk_allocChunk_allocStr,
      List.length_replicate, Nat.mod_self]

/-- C1: evaluation of the overflow deep-copy path on a HEAP_CHUNKS
descriptor (GC leaves the refcount unchanged).  A fresh pool entry and a
fresh clone block are allocated, but the returned descriptor keeps the
saturated reference counter (instead of refs = 1) and its collection
pointer still designates the ORIGINAL chunk (index 0), leaking the clone
at index 1; the original descriptor and block are untouched. -/
theorem claim_C1 :
    (ecma_copy_or_ref_ecma_string envC id stC1 0).2 = 1 ∧
    ((ecma_copy_or_ref_ecma_string envC id stC1 0).1.getStr 1).refs = 4294967295 ∧
    ((ecma_copy_or_ref_ecma_string envC id stC1 0).1.getStr 1).container = .heapChunks ∧
    ((ecma_copy_or_ref_ecma_string envC id stC1 0).1.getStr 1).u = 0 ∧
    (ecma_copy_or_ref_ecma_string envC id stC1 0).1.chunks.length = 2 ∧
    (ecma_copy_or_ref_ecma_string envC id stC1 0).1.getChunk 1 = ⟨3, 3, [97, 98, 99]⟩ ∧
    (ecma_copy_or_ref_ecma_string envC id stC1 0).1.getStr 0 = stC1.getStr 0 ∧
    (ecma_copy_or_ref_ecma_string envC id stC1 0).1.getChunk 0 = stC1.getChunk 0 := by
  decide

/-- C2: the comparator declares the two distinct strings of `stC2` equal:
their hashes collide, sizes and lengths agree, and the byte comparison is
performed with `strncmp`, which stops at the first NUL byte pair, so the
differing bytes after the NUL are never examined.  Both descriptors
satisfy the hash and header invariants the claim assumes. -/
theorem claim_C2 :
    wfString envC stC2 ⟨1, .heapChunks, 0, 0⟩ ∧
    wfString envC stC2 ⟨1, .heapChunks, 0, 1⟩ ∧
    ecma_compare_ecma_strings envC stC2 ⟨1, .heapChunks, 0, 0⟩ ⟨1, .heapChunks, 0, 1⟩ = true ∧
    ecma_string_materialize envC stC2 ⟨1, .heapChunks, 0, 0⟩ ≠
      ecma_string_materialize envC stC2 ⟨1, .heapChunks, 0, 1⟩ := by
  refine ⟨⟨by decide, by decide, by decide, by decide, by decide, by decide, by decide⟩,
    ⟨by decide, by decide, by decide, by decide, by decide, by decide, by decide⟩,
    by decide, by decide⟩

/-- C4 (amended): for live, well-formed operands below refcount
saturation whose combined byte-size fits the uint16 header, concatenation
is byte-, size- and length-additive; when an operand is empty the other
is returned through copy-or-ref, i.e. (below saturation) the same
descriptor with its reference counter incremented in place. -/
theorem claim_C4_amended (env : LitEnv) (gc : EcmaState → EcmaState) (st : EcmaState)
    (p1 p2 : Nat)
    (hp1 : p1 < st.strings.length) (hp2 : p2 < st.strings.length)
    (hw1 : wfString env st (st.getStr p1)) (hw2 : wfString env st (st.getStr p2))
    (hr1 : (st.getStr p1).refs + 1 < ECMA_STRING_REFS_LIMIT)
    (hr2 : (st.getStr p2).refs + 1 < ECMA_STRING_REFS_LIMIT)
    (hsum : (ecma_string_materialize env st (st.getStr p1)).length +
        (ecma_string_materialize env st (st.getStr p2)).length ≤ 65535) :
    ecma_string_materialize env (ecma_concat_ecma_strings env gc st p1 p2).1
      ((ecma_concat_ecma_strings env gc st p1 p2).1.getStr
        (ecma_concat_ecma_strings env gc st p1 p2).2) =
      ecma_string_materialize env st (st.getStr p1) ++
        ecma_string_materialize env st (st.getStr p2) ∧
    ecma_string_get_size env (ecma_concat_ecma_strings env gc st p1 p2).1
      ((ecma_concat_ecma_strings env gc st p1 p2).1.getStr
        (ecma_concat_ecma_strings env gc st p1 p2).2) =
      ecma_string_get_size env st (st.getStr p1) +
        ecma_string_get_size env st (st.getStr p2) ∧
    ecma_string_get_length env (ecma_concat_ecma_strings env gc st p1 p2).1
      ((ecma_concat_ecma_strings env gc st p1 p2).1.getStr
        (ecma_concat_ecma_strings env gc st p1 p2).2) =
      ecma_string_get_length env st (st.getStr p1) +
        ecma_string_get_length env st (st.getStr p2) ∧
    (ecma_string_get_size env st (st.getStr p1) = 0 →
      ecma_concat_ecma_strings env gc st p1 p2 =
        (st.setStr p2 { st.getStr p2 with refs := (st.getStr p2).refs + 1 }, p2)) ∧
    (ecma_string_get_size env st (st.getStr p1) ≠ 0 →
      ecma_string_get_size env st (st.getStr p2) = 0 →
      ecma_concat_ecma_strings env gc st p1 p2 =
        (st.setStr p1 { st.getStr p1 with refs := (st.getStr p1).refs + 1 }, p1)) := by
  obtain ⟨H, plt, W, M, _⟩ :=
    concat_spec env gc st p1 p2 hp1 hp2 hw1 hw2 hr1 hr2 hsum
  refine ⟨M, ?_, ?_, ?_, ?_⟩
  · rw [W.2.1, M, List.length_append, hw1.2.1, hw2.2.1]
  · rw [W.2.2.1, M, lit_utf8_string_length_append, hw1.2.2.1, hw2.2.2.1]
  · intro hz
    rw [ecma_concat_ecma_strings]
    simp only [hz, eq_self_iff_true, if_true]
    exact copy_or_ref_fast env gc st p2 hr2
  · intro hz1 hz2
    rw [ecma_concat_ecma_strings]
    simp only [hz2, if_neg hz1, eq_self_iff_true, if_true]
    exact copy_or_ref_fast env gc st p1 hr1

/-- Witness for C4 on `"ab" ++ "cd"`. -/
theorem claim_C4_witness :
    wfString envC stC4w (stC4w.getStr 0) ∧
    ecma_string_materialize envC (ecma_concat_ecma_strings envC id stC4w 0 1).1
      ((ecma_concat_ecma_strings envC id stC4w 0 1).1.getStr
        (ecma_concat_ecma_strings envC id stC4w 0 1).2) =
      ecma_string_materialize envC stC4w (stC4w.getStr 0) ++
        ecma_string_materialize envC stC4w (stC4w.getStr 1) ∧
    ecma_string_get_size envC (ecma_concat_ecma_strings envC id stC4w 0 1).1
      ((ecma_concat_ecma_strings envC id stC4w 0 1).1.getStr
        (ecma_concat_ecma_strings envC id stC4w 0 1).2) =
      ecma_string_get_size envC stC4w (stC4w.getStr 0) +
        ecma_string_get_size envC stC4w (stC4w.getStr 1) := by
  have h := claim_C4_amended envC id stC4w 0 1 (by decide) (by decide)
    ⟨by decide, by decide, by decide, by decide, by decide, by decide, by decide⟩
    ⟨by decide, by decide, by decide, by decide, by decide, by decide, by decide⟩
    (by decide) (by decide) (by decide)
  exact ⟨⟨by decide, by decide, by decide, by decide, by decide, by decide, by decide⟩,
    h.1, h.2.1⟩

/-- Counterexample for C4 as stated: the first operand is empty, yet the
result of concatenation is NOT the second operand itself (pointer 1) but
a fresh deep copy (pointer 2) with refs 1, because the second operand's
reference counter is saturated. -/
theorem claim_C4_counterexample :
    ecma_string_get_size envC stC4c (stC4c.getStr 0) = 0 ∧
    (ecma_concat_ecma_strings envC id stC4c 0 1).2 = 2 ∧
    (ecma_concat_ecma_strings envC id stC4c 0 1).2 ≠ 1 ∧
    ((ecma_concat_ecma_strings envC id stC4c 0 1).1.getStr 2).refs = 1 := by
  decide

/-- The non-empty branch of concatenation always yields a HEAP_CHUNKS
descriptor. -/
theorem concat_nonempty_container (env : LitEnv) (gc : EcmaState → EcmaState)
    (st : EcmaState) (p1 p2 : Nat)
    (hz1 : ecma_string_get_size env st (st.getStr p1) ≠ 0)
    (hz2 : ecma_string_get_size env st (st.getStr p2) ≠ 0) :
    ((ecma_concat_ecma_strings env gc st p1 p2).1.getStr
      (ecma_concat_ecma_strings env gc st p1 p2).2).container = .heapChunks := by
  simp only [ecma_concat_ecma_strings]
  rw [if_neg hz1, if_neg hz2]
  rw [getStr_allocChunk_allocStr]

/-- C5 (amended): for live, well-formed, non-empty operands below
saturation with combined size within the uint16 header, the concatenation
result is HEAP_CHUNKS even when its bytes match a built-in or extended
magic entry, `ecma_is_string_magic` answers false on it, and yet the
comparator declares it equal to the descriptor built from the matching
magic id. -/
theorem claim_C5_amended (env : LitEnv) (gc : EcmaState → EcmaState) (st : EcmaState)
    (p1 p2 : Nat) (hwf : wfEnv env)
    (hp1 : p1 < st.strings.length) (hp2 : p2 < st.strings.length)
    (hw1 : wfString env st (st.getStr p1)) (hw2 : wfString env st (st.getStr p2))
    (hr1 : (st.getStr p1).refs + 1 < ECMA_STRING_REFS_LIMIT)
    (hr2 : (st.getStr p2).refs + 1 < ECMA_STRING_REFS_LIMIT)
    (hz1 : ecma_string_get_size env st (st.getStr p1) ≠ 0)
    (hz2 : ecma_string_get_size env st (st.getStr p2) ≠ 0)
    (hsum : (ecma_string_materialize env st (st.getStr p1)).length +
        (ecma_string_materialize env st (st.getStr p2)).length ≤ 65535) :
    ((ecma_concat_ecma_strings env gc st p1 p2).1.getStr
      (ecma_concat_ecma_strings env gc st p1 p2).2).container = .heapChunks ∧
    ecma_is_string_magic ((ecma_concat_ecma_strings env gc st p1 p2).1.getStr
      (ecma_concat_ecma_strings env gc st p1 p2).2) = none ∧
    (∀ m, m < env.magic.length →
      env.magic.getD m [] =
        ecma_string_materialize env st (st.getStr p1) ++
          ecma_string_materialize env st (st.getStr p2) →
      ecma_compare_ecma_strings env (ecma_concat_ecma_strings env gc st p1 p2).1
        ((ecma_concat_ecma_strings env gc st p1 p2).1.getStr
          (ecma_concat_ecma_strings env gc st p1 p2).2)
        (ecma_init_ecma_string_from_magic_string_id env m) = true) ∧
    (∀ m, m < env.magicEx.length →
      env.magicEx.getD m [] =
        ecma_string_materialize env st (st.getStr p1) ++
          ecma_string_materialize env st (st.getStr p2) →
      ecma_compare_ecma_strings env (ecma_concat_ecma_strings env gc st p1 p2).1
        ((ecma_concat_ecma_strings env gc st p1 p2).1.getStr
          (ecma_concat_ecma_strings env gc st p1 p2).2)
        (ecma_init_ecma_string_from_magic_string_ex_id env m) = true) := by
  have hcont := concat_nonempty_container env gc st p1 p2 hz1 hz2
  obtain ⟨H, plt, W, M, _⟩ :=
    concat_spec env gc st p1 p2 hp1 hp2 hw1 hw2 hr1 hr2 hsum
  refine ⟨hcont, by simp [ecma_is_string_magic, hcont], ?_, ?_⟩
  · intro m hm hentry
    obtain ⟨hmatd, hwfd⟩ :=
      magic_desc_spec env (ecma_concat_ecma_strings env gc st p1 p2).1 hm
    apply compare_complete env _ _ _ hwf W hwfd
      (Or.inr (Or.inr hcont)) (Or.inl rfl)
    rw [M, hmatd, hentry]
  · intro m hm hentry
    obtain ⟨hmatd, hwfd⟩ :=
      magic_ex_desc_spec env (ecma_concat_ecma_strings env gc st p1 p2).1 hm
    apply compare_complete env _ _ _ hwf W hwfd
      (Or.inr (Or.inr hcont)) (Or.inr (Or.inl rfl))
    rw [M, hmatd, hentry]

/-- Witness for C5: `"leng" ++ "th"` stays HEAP_CHUNKS, is not
magic-recognized, yet compares equal to the `"length"` magic descriptor
(id 1 of the concrete table). -/
theorem claim_C5_witness :
    envC.magic.getD 1 [] =
      ecma_string_materialize envC stC5w (stC5w.getStr 0) ++
        ecma_string_materialize envC stC5w (stC5w.getStr 1) ∧
    ((ecma_concat_ecma_strings envC id stC5w 0 1).1.getStr
      (ecma_concat_ecma_strings envC id stC5w 0 1).2).container = .heapChunks ∧
    ecma_is_string_magic ((ecma_concat_ecma_strings envC id stC5w 0 1).1.getStr
      (ecma_concat_ecma_strings envC id stC5w 0 1).2) = none ∧
    ecma_compare_ecma_strings envC (ecma_concat_ecma_strings envC id stC5w 0 1).1
      ((ecma_concat_ecma_strings envC id stC5w 0 1).1.getStr
        (ecma_concat_ecma_strings envC id stC5w 0 1).2)
      (ecma_init_ecma_string_from_magic_string_id envC 1) = true := by
  have h := claim_C5_amended envC id stC5w 0 1 wfEnv_envC (by decide) (by decide)
    ⟨by decide, by decide, by decide, by decide, by decide, by decide, by decide⟩
    ⟨by decide, by decide, by decide, by decide, by decide, by decide, by decide⟩
    (by decide) (by decide) (by decide) (by decide) (by decide)
  exact ⟨by decide, h.1, h.2.1, h.2.2.1 1 (by decide) (by decide)⟩

/-- Counterexample for C5 as stated (no invariant hypotheses): both
operands are non-empty, the result's bytes are exactly the `"length"`
magic entry, but the comparator answers false because the concatenation
hash is derived from the operand's corrupt cached hash. -/
theorem claim_C5_counterexample :
    ecma_string_get_size envC stC5c (stC5c.getStr 0) ≠ 0 ∧
    ecma_string_get_size envC stC5c (stC5c.getStr 1) ≠ 0 ∧
    ecma_string_materialize envC (ecma_concat_ecma_strings envC id stC5c 0 1).1
      ((ecma_concat_ecma_strings envC id stC5c 0 1).1.getStr
        (ecma_concat_ecma_strings envC id stC5c 0 1).2) = envC.magic.getD 1 [] ∧
    ecma_compare_ecma_strings envC (ecma_concat_ecma_strings envC id stC5c 0 1).1
      ((ecma_concat_ecma_strings envC id stC5c 0 1).1.getStr
        (ecma_concat_ecma_strings envC id stC5c 0 1).2)
      (ecma_init_ecma_string_from_magic_string_id envC 1) = false := by
  decide

/-- Chain lemma behind C8: materialize once, slice `[i,j)` and `[j,k)`,
concatenate, and compare against the direct slice `[i,k)` — equal, in the
final state, whatever GC callback and intermediate allocations occur. -/
theorem substr_concat_chain (env : LitEnv) (gc : EcmaState → EcmaState)
    (st : EcmaState) (s : EcmaString) (i j k : Nat)
    (hwf : wfEnv env) (hws : wfString env st s)
    (hij : i ≤ j) (hjk : j ≤ k)
    (hlen : (ecma_string_materialize env st s).length ≤ 65535)
    {st1 st2 st3 st4 : EcmaState} {p1 p2 pc pk : Nat}
    (e1 : ecma_string_substr env st s i j = (st1, p1))
    (e2 : ecma_string_substr env st1 s j k = (st2, p2))
    (e3 : ecma_concat_ecma_strings env gc st2 p1 p2 = (st3, pc))
    (e4 : ecma_string_substr env st3 s i k = (st4, pk)) :
    ecma_compare_ecma_strings env st4 (st4.getStr pc) (st4.getStr pk) = true := by
  obtain ⟨H1, P1, R1, C1, M1, W1⟩ := substr_spec env st s i j hwf hij hlen
  rw [e1] at H1 P1 R1 C1 M1 W1
  dsimp only at H1 P1 R1 C1 M1 W1
  have hp1lt : p1 < st1.strings.length := by
    have h := substr_ptr_lt env st s i j
    rw [e1] at h
    exact h
  have hB1 : ecma_string_materialize env st1 s = ecma_string_materialize env st s :=
    materialize_frame env H1 hws.2.2.2.2.2.1 hws.2.2.2.2.2.2
  have hws1 : wfString env st1 s := wfString_frame env H1 hws
  obtain ⟨H2, P2, R2, C2, M2, W2⟩ :=
    substr_spec env st1 s j k hwf hjk (by rw [hB1]; exact hlen)
  rw [e2] at H2 P2 R2 C2 M2 W2
  dsimp only at H2 P2 R2 C2 M2 W2
  rw [hB1] at M2
  have hp2lt : p2 < st2.strings.length := by
    have h := substr_ptr_lt env st1 s j k
    rw [e2] at h
    exact h
  have hg21 : st2.getStr p1 = st1.getStr p1 := getStr_frame P2 hp1lt
  have hp1lt2 : p1 < st2.strings.length :=
    lt_of_lt_of_le hp1lt (poolGrows_length_le P2)
  have hW1s : wfString env st2 (st2.getStr p1) := by
    rw [hg21]
    exact wfString_frame env H2 W1
  have hM1s : ecma_string_materialize env st2 (st2.getStr p1) =
      ((ecma_string_materialize env st s).drop
        (utf8Advance (ecma_string_materialize env st s) 0 i)).take
        (utf8Advance (ecma_string_materialize env st s) 0 j -
          utf8Advance (ecma_string_materialize env st s) 0 i) := by
    rw [hg21, materialize_frame env H2 W1.2.2.2.2.2.1 W1.2.2.2.2.2.2]
    exact M1
  have hmono_ij : utf8Advance (ecma_string_materialize env st s) 0 i ≤
      utf8Advance (ecma_string_materialize env st s) 0 j :=
    utf8Advance_mono _ _ hij
  have hmono_jk : utf8Advance (ecma_string_materialize env st s) 0 j ≤
      utf8Advance (ecma_string_materialize env st s) 0 k :=
    utf8Advance_mono _ _ hjk
  have hadd := slice_append (ecma_string_materialize env st s) hmono_ij hmono_jk
  have hsum : (ecma_string_materialize env st2 (st2.getStr p1)).length +
      (ecma_string_materialize env st2 (st2.getStr p2)).length ≤ 65535 := by
    rw [hM1s, M2, ← List.length_append, hadd]
    have l1 := List.length_take
      (utf8Advance (ecma_string_materialize env st s) 0 k -
        utf8Advance (ecma_string_materialize env st s) 0 i)
      ((ecma_string_materialize env st s).drop
        (utf8Advance (ecma_string_materialize env st s) 0 i))
    have l2 := List.length_drop
      (utf8Advance (ecma_string_materialize env st s) 0 i)
      (ecma_string_materialize env st s)
    omega
  obtain ⟨H3, plt3, W3, M3, Comp3⟩ :=
    concat_spec env gc st2 p1 p2 hp1lt2 hp2lt hW1s W2
      (by have : (st2.getStr p1).refs = 1 := by rw [hg21]; exact R1
          rw [this]
          norm_num [ECMA_STRING_REFS_LIMIT])
      (by rw [R2]; norm_num [ECMA_STRING_REFS_LIMIT])
      hsum
  rw [e3] at H3 plt3 W3 M3 Comp3
  dsimp only at H3 plt3 W3 M3 Comp3
  have hM3 : ecma_string_materialize env st3 (st3.getStr pc) =
      ((ecma_string_materialize env st s).drop
        (utf8Advance (ecma_string_materialize env st s) 0 i)).take
        (utf8Advance (ecma_string_materialize env st s) 0 k -
          utf8Advance (ecma_string_materialize env st s) 0 i) := by
    rw [M3, hM1s, M2, hadd]
  have hcomp_c := Comp3 (by rw [hg21]; exact C1) C2
  have hws2 : wfString env st2 s := wfString_frame env H2 hws1
  have hws3 : wfString env st3 s := wfString_frame env H3 hws2
  have hB3 : ecma_string_materialize env st3 s = ecma_string_materialize env st s := by
    rw [materialize_frame env H3 hws2.2.2.2.2.2.1 hws2.2.2.2.2.2.2,
      materialize_frame env H2 hws1.2.2.2.2.2.1 hws1.2.2.2.2.2.2, hB1]
  obtain ⟨H4, P4, R4, C4c, M4, W4⟩ :=
    substr_spec env st3 s i k hwf (le_trans hij hjk) (by rw [hB3]; exact hlen)
  rw [e4] at H4 P4 R4 C4c M4 W4
  dsimp only at H4 P4 R4 C4c M4 W4
  rw [hB3] at M4
  have hg4c : st4.getStr pc = st3.getStr pc := getStr_frame P4 plt3
  have hwc4 : wfString env st4 (st4.getStr pc) := by
    rw [hg4c]
    exact wfString_frame env H4 W3
  have hmc4 : ecma_string_materialize env st4 (st4.getStr pc) =
      ((ecma_string_materialize env st s).drop
        (utf8Advance (ecma_string_materialize env st s) 0 i)).take
        (utf8Advance (ecma_string_materialize env st s) 0 k -
          utf8Advance (ecma_string_materialize env st s) 0 i) := by
    rw [hg4c, materialize_frame env H4 W3.2.2.2.2.2.1 W3.2.2.2.2.2.2, hM3]
  apply compare_complete env st4 _ _ hwf hwc4 W4
    (by rw [hg4c]; exact hcomp_c) C4c
  rw [hmc4, M4]

/-- C8: over valid CESU-8 content and code-unit indices
`i <= j <= k <= length`, the concatenation of `substr(s,i,j)` and
`substr(s,j,k)` compares equal (as a string) to `substr(s,i,k)`; and
`substr(s,i,i)` is the empty-string magic descriptor. -/
theorem claim_C8 (env : LitEnv) (gc : EcmaState → EcmaState) (st : EcmaState)
    (s : EcmaString) (i j k : Nat)
    (hwf : wfEnv env) (hws : wfString env st s)
    (hij : i ≤ j) (hjk : j ≤ k)
    (hkL : k ≤ ecma_string_get_length env st s)
    (hvalid : utf8Advance (ecma_string_materialize env st s) 0
        (ecma_string_get_length env st s) = (ecma_string_materialize env st s).length)
    (hlen : (ecma_string_materialize env st s).length ≤ 65535) :
    (    ecma_compare_ecma_strings env (ecma_string_substr env (ecma_concat_ecma_strings env gc (ecma_string_substr env (ecma_string_substr env st s i j).1 s j k).1 (ecma_string_substr env st s i j).2 (ecma_string_substr env (ecma_string_substr env st s i j).1 s j k).2).1 s i k).1
      ((ecma_string_substr env (ecma_concat_ecma_strings env gc (ecma_string_substr env (ecma_string_substr env st s i j).1 s j k).1 (ecma_string_substr env st s i j).2 (ecma_string_substr env (ecma_string_substr env st s i j).1 s j k).2).1 s i k).1.getStr (ecma_concat_ecma_strings env gc (ecma_string_substr env (ecma_string_substr env st s i j).1 s j k).1 (ecma_string_substr env st s i j).2 (ecma_string_substr env (ecma_string_substr env st s i j).1 s j k).2).2)
      ((ecma_string_substr env (ecma_concat_ecma_strings env gc (ecma_string_substr env (ecma_string_substr env st s i j).1 s j k).1 (ecma_string_substr env st s i j).2 (ecma_string_substr env (ecma_string_substr env st s i j).1 s j k).2).1 s i k).1.getStr (ecma_string_substr env (ecma_concat_ecma_strings env gc (ecma_string_substr env (ecma_string_substr env st s i j).1 s j k).1 (ecma_string_substr env st s i j).2 (ecma_string_substr env (ecma_string_substr env st s i j).1 s j k).2).1 s i k).2) = true) ∧
    ((ecma_string_substr env st s i i).1.getStr
      (ecma_string_substr env st s i i).2).container = .magicString ∧
    env.magic.getD ((ecma_string_substr env st s i i).1.getStr
      (ecma_string_substr env st s i i).2).u [] = [] := by
  refine ⟨?_, ?_, ?_⟩
  · exact substr_concat_chain env gc st s i j k hwf hws hij hjk hlen
      Prod.mk.eta.symm Prod.mk.eta.symm Prod.mk.eta.symm Prod.mk.eta.symm
  · have hred : ecma_string_substr env st s i i =
        ecma_new_ecma_string_from_utf8 env st [] := by
      rw [ecma_string_substr, if_neg (by omega)]
    rw [hred]
    exact (from_utf8_empty env st hwf).1
  · have hred : ecma_string_substr env st s i i =
        ecma_new_ecma_string_from_utf8 env st [] := by
      rw [ecma_string_substr, if_neg (by omega)]
    rw [hred]
    exact (from_utf8_empty env st hwf).2

/-- Witness for C8 on `"abc"` with `i, j, k = 0, 1, 2`. -/
theorem claim_C8_witness :
    (wfString envC stC8w sC8 ∧
      2 ≤ ecma_string_get_length envC stC8w sC8 ∧
      utf8Advance (ecma_string_materialize envC stC8w sC8) 0
        (ecma_string_get_length envC stC8w sC8) =
        (ecma_string_materialize envC stC8w sC8).length) ∧
    (    ecma_compare_ecma_strings envC (ecma_string_substr envC (ecma_concat_ecma_strings envC id (ecma_string_substr envC (ecma_string_substr envC stC8w sC8 0 1).1 sC8 1 2).1 (ecma_string_substr envC stC8w sC8 0 1).2 (ecma_string_substr envC (ecma_string_substr envC stC8w sC8 0 1).1 sC8 1 2).2).1 sC8 0 2).1
      ((ecma_string_substr envC (ecma_concat_ecma_strings envC id (ecma_string_substr envC (ecma_string_substr envC stC8w sC8 0 1).1 sC8 1 2).1 (ecma_string_substr envC stC8w sC8 0 1).2 (ecma_string_substr envC (ecma_string_substr envC stC8w sC8 0 1).1 sC8 1 2).2).1 sC8 0 2).1.getStr (ecma_concat_ecma_strings envC id (ecma_string_substr envC (ecma_string_substr envC stC8w sC8 0 1).1 sC8 1 2).1 (ecma_string_substr envC stC8w sC8 0 1).2 (ecma_string_substr envC (ecma_string_substr envC stC8w sC8 0 1).1 sC8 1 2).2).2)
      ((ecma_string_substr envC (ecma_concat_ecma_strings envC id (ecma_string_substr envC (ecma_string_substr envC stC8w sC8 0 1).1 sC8 1 2).1 (ecma_string_substr envC stC8w sC8 0 1).2 (ecma_string_substr envC (ecma_string_substr envC stC8w sC8 0 1).1 sC8 1 2).2).1 sC8 0 2).1.getStr (ecma_string_substr envC (ecma_concat_ecma_strings envC id (ecma_string_substr envC (ecma_string_substr envC stC8w sC8 0 1).1 sC8 1 2).1 (ecma_string_substr envC stC8w sC8 0 1).2 (ecma_string_substr envC (ecma_string_substr envC stC8w sC8 0 1).1 sC8 1 2).2).1 sC8 0 2).2) = true) ∧
    ((ecma_string_substr envC stC8w sC8 0 0).1.getStr
      (ecma_string_substr envC stC8w sC8 0 0).2).container = .magicString := by
  have h := claim_C8 envC id stC8w sC8 0 1 2 wfEnv_envC
    ⟨by decide, by decide, by decide, by decide, by decide, by decide, by decide⟩
    (by decide) (by decide) (by decide) (by decide) (by decide)
  exact ⟨⟨⟨by decide, by decide, by decide, by decide, by decide, by decide, by decide⟩,
    by decide, by decide⟩, h.1, h.2.1⟩
